import Mathlib

/-!
Shallow embedding of the aggregatable-DKG crate (PVSS-DKG over a pairing-friendly
curve, plus BLS and Schnorr signature schemes).

Modelling conventions:
* The scalar field `Fr` is `ZMod q` for a parameter `q`.
* The prime-order groups `G1`, `G2` and the target group `GT` are modelled in the
  exponent: a group element `g^x` is represented by its exponent `x : ZMod q`,
  group addition is addition in `ZMod q`, scalar multiplication is multiplication
  in `ZMod q`, and the bilinear pairing `e : G1 x G2 -> GT` is multiplication
  `fun a b => a * b`.  `product_of_pairings` becomes a sum and `is_one` on `GT`
  becomes `= 0`.  This is faithful for the generic-group operations the crate
  performs (the curve arithmetic itself is an external collaborator crate).
* External capabilities (radix-2 FFT domain, Lagrange coefficients, canonical
  serialization, BLAKE2s, ChaCha, point decoding) are passed in as explicit
  function parameters, mirroring the fact that they come from external crates.
* Randomness: every `rng` argument of the source is replaced by explicitly
  passing the values the operation samples from it.
* Rust `Result` becomes `Except`; fallible external calls stay fallible.
-/

namespace ADKG

/-- Error type of `src/signature/utils/errors.rs` (`SignatureError`); the
serialization payload is dropped since serialization is modelled as total. -/
inductive SignatureError where
  | SRSSetupError
  | BLSVerify
  | SchnorrVerify
  | SignatureDoesNotHaveInverse
  | SRSDifferent
  | SerializationError
  | BatchVerification (lenPks lenMsgs lenSigs : ℕ)
  deriving DecidableEq, Repr

/-- Error type of `src/dkg/errors.rs` (`DKGError<E>`), with the
`EvaluationsCheckError` payload being the (exponent-modelled) G1 product. -/
inductive DKGError (q : ℕ) where
  | RatioIncorrect
  | EvaluationsCheckError (product : ZMod q)
  | EvaluationDomainError
  | DifferentSRS
  | SignatureError (e : ADKG.SignatureError)
  | SerializationError
  | InvalidParticipantId (id : ℕ)
  | TranscriptDifferentConfig (selfDeg otherDeg selfN otherN : ℕ)
  | TranscriptDifferentCommitments
  deriving DecidableEq

/-- `src/dkg/srs.rs`: the DKG common reference string, two group generators. -/
structure SRS (q : ℕ) where
  g_g1 : ZMod q
  h_g2 : ZMod q
  deriving DecidableEq

/-- `src/dkg/config.rs`: immutable DKG configuration. -/
structure Config (q : ℕ) where
  srs : SRS q
  u_1 : ZMod q
  degree : ℕ
  deriving DecidableEq

/-- `src/dkg/participant.rs`: participant lifecycle states. -/
inductive ParticipantState where
  | Dealer
  | DealerShared
  | Initial
  | Verified
  deriving DecidableEq, Repr

/-- `src/dkg/participant.rs`: a roster entry (the `PhantomData` field is
dropped; `public_key_sig` lives in G2 in the DKG instantiation). -/
structure Participant (q : ℕ) where
  id : ℕ
  public_key_sig : ZMod q
  state : ParticipantState
  deriving DecidableEq

/-- `src/dkg/dealer.rs`: a dealer, holding its signing secret and the running
sum of decrypted seats. -/
structure Dealer (q : ℕ) where
  private_key_sig : ZMod q
  accumulated_secret : ZMod q
  participant : Participant q
  deriving DecidableEq

/-- `src/dkg/pvss.rs`: the public PVSS share of one dealer. -/
structure PVSSShare (q : ℕ) where
  f_i : List (ZMod q)
  u_i_2 : ZMod q
  a_i : List (ZMod q)
  y_i : List (ZMod q)
  deriving DecidableEq

/-- `src/dkg/pvss.rs`: the dealer-private part of a share. -/
structure PVSSShareSecrets (q : ℕ) where
  f_0 : ZMod q
  my_secret : ZMod q
  deriving DecidableEq

/-- `PVSSShare::empty(degree, num_participants)`: all-identity share with
`f_i` of length `degree + 1` and `a_i`, `y_i` of length `num_participants`. -/
def PVSSShare.empty (q : ℕ) (degree num_participants : ℕ) : PVSSShare q :=
  { f_i := List.replicate (degree + 1) 0
    u_i_2 := 0
    a_i := List.replicate num_participants 0
    y_i := List.replicate num_participants 0 }

/-- `PVSSShare::aggregate`: pointwise group addition of the two shares; the
Rust `iter().zip(...)` truncates to the shorter vector. -/
def PVSSShare.aggregate {q : ℕ} (self other : PVSSShare q) : PVSSShare q :=
  { f_i := List.zipWith (· + ·) self.f_i other.f_i
    u_i_2 := self.u_i_2 + other.u_i_2
    a_i := List.zipWith (· + ·) self.a_i other.a_i
    y_i := List.zipWith (· + ·) self.y_i other.y_i }

/-- The repeated `let mut current_alpha = start; for _ in 0..count { push;
current_alpha *= alpha }` pattern of the source, as a recursive function. -/
def powersFrom {q : ℕ} (start alpha : ZMod q) : ℕ → List (ZMod q)
  | 0 => []
  | count + 1 => start :: powersFrom (start * alpha) alpha count

/-- `src/dkg/aggregator.rs` lines 148-156 (`pvss_share_verify`, degree check):
the `powers_of_alpha` block, starting from `E::Fr::one().neg()` and pushing
`degree + 1` scalars, multiplying by `alpha` after each push. -/
def powersOfAlphaDegCheck {q : ℕ} (alpha : ZMod q) (degree : ℕ) : List (ZMod q) :=
  powersFrom (-1) alpha (degree + 1)

/-- `src/dkg/aggregator.rs` lines 174-182 (`pvss_share_verify`, encryption
check): the second `powers_of_alpha` block, starting from `E::Fr::one()` and
pushing `num_participants + 1` scalars. -/
def powersOfAlphaEnc {q : ℕ} (alpha : ZMod q) (numParticipants : ℕ) : List (ZMod q) :=
  powersFrom 1 alpha (numParticipants + 1)

/-- Modelled from the spec: the degree-check scalar sequence as § 4.3 (a)
words it, `powers = (-1, alpha, alpha^2, ..., alpha^t)` - first scalar `-1`,
the remaining `t` scalars the non-negated powers of `alpha`. -/
def specDegCheckPowers {q : ℕ} (alpha : ZMod q) (degree : ℕ) : List (ZMod q) :=
  (-1) :: (List.range degree).map (fun k => alpha ^ (k + 1))

/-- `VariableBaseMSM::multi_scalar_mul` in the exponent model: the sum of
pointwise products, truncating to the shorter list as arkworks does. -/
def msm {q : ℕ} (bases scalars : List (ZMod q)) : ZMod q :=
  ((bases.zip scalars).map (fun p => p.1 * p.2)).sum

/-- `message_from_c_i` (`src/dkg/share.rs`): canonical serialization of the
affine point `c_i`; serialization is external, modelled as the injective
byte encoding `[c_i.val]`. -/
def messageFromCi {q : ℕ} (c_i : ZMod q) : List ℕ := [c_i.val]

/-- The `SignatureScheme`/`BatchVerifiableSignatureScheme` capability
(`src/signature/scheme/mod.rs`) as a record of operations, in the exponent
model.  `fromSk` returns the `(secret, public)` pair; `sign` takes the value
the scheme would draw from its rng; `batchVerify` takes the fresh batch
scalar `alpha` in place of its rng. -/
structure Scheme (q : ℕ) (PK Sig : Type) where
  fromSk : ZMod q → ZMod q × PK
  sign : ZMod q → ZMod q → List ℕ → Sig
  verify : PK → List ℕ → Sig → Except SignatureError Unit
  batchVerify : ZMod q → List PK → List (List ℕ) → List Sig → Except SignatureError Unit

/-- `Fr::inverse()` of the algebra crate: the multiplicative inverse of a
scalar.  It is written as the Fermat power `a ^ (q - 2)` - the inverse
whenever `q` is prime, which is where the code runs - so that it stays
kernel-computable; no algebraic property of it is relied on in the proofs. -/
def frInverse {q : ℕ} (a : ZMod q) : ZMod q := a ^ (q - 2)

/-- Lift a `SignatureError` into `DKGError` (the `#[from]` conversion used by
`?` in the Rust DKG code). -/
def mapSigErr {q : ℕ} {α : Type} : Except SignatureError α → Except (DKGError q) α
  | Except.ok a => Except.ok a
  | Except.error e => Except.error (DKGError.SignatureError e)

instance exceptDecEq {ε α : Type} [DecidableEq ε] [DecidableEq α] : DecidableEq (Except ε α)
  | Except.ok a, Except.ok b =>
      if h : a = b then isTrue (by rw [h])
      else isFalse (by intro hc; injection hc; contradiction)
  | Except.ok _, Except.error _ => isFalse (by intro h; cases h)
  | Except.error _, Except.ok _ => isFalse (by intro h; cases h)
  | Except.error e, Except.error e2 =>
      if h : e = e2 then isTrue (by rw [h])
      else isFalse (by intro hc; injection hc; contradiction)

/-- Rust's `iter().map(fallible).collect::<Result<Vec<_>, _>>()`: map a
fallible function over a list, short-circuiting on the first error. -/
def listMapE {ε α β : Type} (f : α → Except ε β) : List α → Except ε (List β)
  | [] => Except.ok []
  | a :: l => do
      let b ← f a
      let bs ← listMapE f l
      Except.ok (b :: bs)

/-- `src/dkg/share.rs`: the wire message a dealer broadcasts. -/
structure DKGShare (q : ℕ) (SPOK SSIG : Type) where
  participant_id : ℕ
  pvss_share : PVSSShare q
  c_i : ZMod q
  c_i_pok : SPOK
  signature_on_c_i : SSIG
  deriving DecidableEq

/-- `src/dkg/share.rs`: one participant's contribution inside a transcript
(`weight` is a `u64` counting accepted duplicate submissions). -/
structure DKGTranscriptParticipant (q : ℕ) (SPOK SSIG : Type) where
  c_i : ZMod q
  weight : ℕ
  c_i_pok : SPOK
  signature_on_c_i : SSIG
  deriving DecidableEq

/-- `src/dkg/share.rs`: a transcript; the `BTreeMap<usize, _>` of
contributions is modelled as an association list ordered by id. -/
structure DKGTranscript (q : ℕ) (SPOK SSIG : Type) where
  degree : ℕ
  num_participants : ℕ
  contributions : List (ℕ × DKGTranscriptParticipant q SPOK SSIG)
  pvss_share : PVSSShare q
  deriving DecidableEq

/-- `DKGTranscript::empty`. -/
def DKGTranscript.empty (q : ℕ) (SPOK SSIG : Type) (degree num_participants : ℕ) :
    DKGTranscript q SPOK SSIG :=
  { degree := degree
    num_participants := num_participants
    contributions := []
    pvss_share := PVSSShare.empty q degree num_participants }

/-- The per-id case split of `DKGTranscript::aggregate`: merge the entries of
`self` and `other` at id `i` (both present requires equal `c_i` and sums the
weights, keeping `self`'s PoK and signature; one present carries through;
neither yields nothing). -/
def mergeEntry {q : ℕ} {SPOK SSIG : Type} [DecidableEq SPOK] [DecidableEq SSIG]
    (self other : DKGTranscript q SPOK SSIG) (i : ℕ) :
    Except (DKGError q) (Option (ℕ × DKGTranscriptParticipant q SPOK SSIG)) :=
  match self.contributions.lookup i, other.contributions.lookup i with
  | some a, some b =>
      if a.c_i ≠ b.c_i then Except.error DKGError.TranscriptDifferentCommitments
      else Except.ok (some (i,
        { c_i := a.c_i
          weight := a.weight + b.weight
          c_i_pok := a.c_i_pok
          signature_on_c_i := a.signature_on_c_i }))
  | some a, none => Except.ok (some (i, a))
  | none, some b => Except.ok (some (i, b))
  | none, none => Except.ok none

/-- `DKGTranscript::aggregate` (`src/dkg/share.rs` lines 69-109): fail on a
config mismatch, merge the contributions over ids `0..num_participants`, and
pointwise-add the PVSS shares. -/
def DKGTranscript.aggregate {q : ℕ} {SPOK SSIG : Type} [DecidableEq SPOK] [DecidableEq SSIG]
    (self other : DKGTranscript q SPOK SSIG) :
    Except (DKGError q) (DKGTranscript q SPOK SSIG) :=
  if self.degree ≠ other.degree ∨ self.num_participants ≠ other.num_participants then
    Except.error (DKGError.TranscriptDifferentConfig self.degree other.degree
      self.num_participants other.num_participants)
  else do
    let entries ← listMapE (mergeEntry self other) (List.range self.num_participants)
    Except.ok
      { degree := self.degree
        num_participants := self.num_participants
        contributions := entries.filterMap id
        pvss_share := self.pvss_share.aggregate other.pvss_share }

/-- The external algebra capability consumed by the DKG: existence of the
radix-2 evaluation domain of a given size, evaluation of all Lagrange
coefficients at a point, and the (non-destructive) FFT. -/
structure AlgebraOps (q : ℕ) where
  domainExists : ℕ → Bool
  lagrangeAll : ℕ → ZMod q → List (ZMod q)
  fft : ℕ → List (ZMod q) → List (ZMod q)

/-- `src/dkg/aggregator.rs`: the aggregator state.  The two scheme objects are
read-only after construction and are passed to the operations instead of being
stored, so that states compare by value. -/
structure DKGAggregator (q : ℕ) (SPOK SSIG : Type) where
  config : Config q
  participants : List (ℕ × Participant q)
  transcript : DKGTranscript q SPOK SSIG
  deriving DecidableEq

/-- One step of the encryption-check loop of `pvss_share_verify`: look up
participant `x.1` and emit the two pairing products
`e(-g * alpha^i, y_i)` and `e(a_i * alpha^i, pk_sig)` for its index, where
`x.2 = ((batched a, y), batched -g)`. -/
def encCheckTerm {q : ℕ} (ps : List (ℕ × Participant q))
    (x : ℕ × ((ZMod q × ZMod q) × ZMod q)) : Except (DKGError q) (List (ZMod q)) :=
  match ps.lookup x.1 with
  | none => Except.error (DKGError.InvalidParticipantId x.1)
  | some p => Except.ok [x.2.2 * x.2.1.2, x.2.1.1 * p.public_key_sig]

/-- `DKGAggregator::pvss_share_verify` (`src/dkg/aggregator.rs` lines
127-237): the probabilistic degree check (MSM over `a_i ++ [c_i] ++ f_i`
against Lagrange coefficients and negated powers of `alpha`), the same-ratio
pairing check, and the batched encryption pairing check; `alpha` is the scalar
sampled from the rng and is reused by the encryption check as in the source. -/
def pvssShareVerify {q : ℕ} {SPOK SSIG : Type} (ops : AlgebraOps q)
    (A : DKGAggregator q SPOK SSIG) (alpha : ZMod q) (c_i : ZMod q) (share : PVSSShare q) :
    Except (DKGError q) Unit :=
  if ¬ ops.domainExists A.participants.length then Except.error DKGError.EvaluationDomainError
  else
    let lagrange_coefficients := ops.lagrangeAll A.participants.length alpha
    let bases := share.a_i ++ (c_i :: share.f_i)
    let scalars := lagrange_coefficients ++ powersOfAlphaDegCheck alpha A.config.degree
    let product := msm bases scalars
    if product ≠ 0 then Except.error (DKGError.EvaluationsCheckError product)
    else if c_i * A.config.u_1 + (-A.config.srs.g_g1) * share.u_i_2 ≠ 0 then
      Except.error DKGError.RatioIncorrect
    else
      let powers := powersOfAlphaEnc alpha A.participants.length
      let batched_a_i := List.zipWith (· * ·) share.a_i powers
      let batched_g_1_neg := powers.map (fun p => (-A.config.srs.g_g1) * p)
      let triples := (batched_a_i.zip share.y_i).zip batched_g_1_neg
      do
        let pairProducts ← listMapE (encCheckTerm A.participants) triples.enum
        if pairProducts.flatten.sum ≠ 0 then Except.error DKGError.RatioIncorrect
        else Except.ok ()

/-- The body of `share_verify` after the roster lookup: PVSS checks,
participant signature on `c_i`, PoK of `c_i`. -/
def shareVerifyChecks {q : ℕ} {SPOK SSIG : Type} (ops : AlgebraOps q)
    (spok : Scheme q (ZMod q) SPOK) (ssig : Scheme q (ZMod q) SSIG)
    (A : DKGAggregator q SPOK SSIG) (alpha : ZMod q) (share : DKGShare q SPOK SSIG)
    (participant : Participant q) : Except (DKGError q) Unit := do
  pvssShareVerify ops A alpha share.c_i share.pvss_share
  mapSigErr (ssig.verify participant.public_key_sig (messageFromCi share.c_i)
    share.signature_on_c_i)
  mapSigErr (spok.verify share.c_i (messageFromCi share.c_i) share.c_i_pok)

/-- `DKGAggregator::share_verify` (`src/dkg/aggregator.rs` lines 239-263):
roster lookup, PVSS checks, participant signature on `c_i`, PoK of `c_i`. -/
def shareVerify {q : ℕ} {SPOK SSIG : Type} (ops : AlgebraOps q)
    (spok : Scheme q (ZMod q) SPOK) (ssig : Scheme q (ZMod q) SSIG)
    (A : DKGAggregator q SPOK SSIG) (alpha : ZMod q) (share : DKGShare q SPOK SSIG) :
    Except (DKGError q) Unit :=
  match A.participants.lookup share.participant_id with
  | none => Except.error (DKGError.InvalidParticipantId share.participant_id)
  | some participant => shareVerifyChecks ops spok ssig A alpha share participant

/-- `DKGAggregator::receive_share` (`src/dkg/aggregator.rs` lines 38-62):
verify, then fold a weight-1 singleton transcript into the state. -/
def receiveShare {q : ℕ} {SPOK SSIG : Type} [DecidableEq SPOK] [DecidableEq SSIG]
    (ops : AlgebraOps q) (spok : Scheme q (ZMod q) SPOK) (ssig : Scheme q (ZMod q) SSIG)
    (A : DKGAggregator q SPOK SSIG) (alpha : ZMod q) (share : DKGShare q SPOK SSIG) :
    Except (DKGError q) (DKGAggregator q SPOK SSIG) := do
  shareVerify ops spok ssig A alpha share
  let singleton : DKGTranscript q SPOK SSIG :=
    { degree := A.config.degree
      num_participants := A.participants.length
      contributions := [(share.participant_id,
        { c_i := share.c_i
          weight := 1
          c_i_pok := share.c_i_pok
          signature_on_c_i := share.signature_on_c_i })]
      pvss_share := share.pvss_share }
  let aggregated ← A.transcript.aggregate singleton
  Except.ok { A with transcript := aggregated }

/-- `DKGAggregator::receive_transcript` (`src/dkg/aggregator.rs` lines
64-125): per-contribution roster lookups, weighted sum `c` of commitments,
batch signature verification, batch PoK verification, then the PVSS checks on
the aggregated share against `c`. -/
def receiveTranscript {q : ℕ} {SPOK SSIG : Type} (ops : AlgebraOps q)
    (spok : Scheme q (ZMod q) SPOK) (ssig : Scheme q (ZMod q) SSIG)
    (A : DKGAggregator q SPOK SSIG) (rngSig rngPok alpha : ZMod q)
    (transcript : DKGTranscript q SPOK SSIG) : Except (DKGError q) Unit := do
  let rows ← listMapE
    (fun ctr =>
      match A.participants.lookup ctr.1 with
      | none => Except.error (DKGError.InvalidParticipantId ctr.1)
      | some p => Except.ok (p.public_key_sig, messageFromCi ctr.2.c_i, ctr.2))
    transcript.contributions
  let c := (transcript.contributions.map
    (fun ctr => ctr.2.c_i * (ctr.2.weight : ZMod q))).sum
  mapSigErr (ssig.batchVerify rngSig (rows.map (fun r => r.1))
    (rows.map (fun r => r.2.1)) (rows.map (fun r => r.2.2.signature_on_c_i)))
  mapSigErr (spok.batchVerify rngPok (transcript.contributions.map (fun ctr => ctr.2.c_i))
    (rows.map (fun r => r.2.1)) (rows.map (fun r => r.2.2.c_i_pok)))
  pvssShareVerify ops A alpha c transcript.pvss_share

/-- `src/dkg/node.rs`: a node is an aggregator plus a dealer. -/
structure Node (q : ℕ) (SPOK SSIG : Type) where
  aggregator : DKGAggregator q SPOK SSIG
  dealer : Dealer q
  deriving DecidableEq

/-- `Node::share_pvss` (`src/dkg/node.rs` lines 55-129).  The `degree + 1`
random coefficients the source samples from its rng are taken from the stream
`rnd`; `ff_fft`'s `fft` is non-destructive, so `f` still holds the
coefficients afterwards. -/
def sharePvss {q : ℕ} {SPOK SSIG : Type} (ops : AlgebraOps q)
    (node : Node q SPOK SSIG) (rnd : ℕ → ZMod q) :
    Except (DKGError q) (PVSSShare q × PVSSShareSecrets q) :=
  let f := (List.range (node.aggregator.config.degree + 1)).map rnd
  if ¬ ops.domainExists node.aggregator.participants.length then
    Except.error DKGError.EvaluationDomainError
  else
    let y_eval_i := ops.fft node.aggregator.participants.length f
    let f_i := (f.drop 1).map (fun a => node.aggregator.config.srs.g_g1 * a)
    let u_i_2 := node.aggregator.config.u_1 * f.headD 0
    let a_i := y_eval_i.map (fun a => node.aggregator.config.srs.g_g1 * a)
    do
      let y_i ← listMapE
        (fun x =>
          match node.aggregator.participants.lookup x.1 with
          | none => Except.error (DKGError.InvalidParticipantId x.1)
          | some p => Except.ok (p.public_key_sig * x.2))
        y_eval_i.enum
      let my_secret := node.aggregator.config.srs.h_g2 *
        (y_eval_i.getD node.dealer.participant.id 0)
      Except.ok
        ({ f_i := f_i, u_i_2 := u_i_2, a_i := a_i, y_i := y_i },
         { f_0 := f.headD 0, my_secret := my_secret })

/-- `Node::share` (`src/dkg/node.rs` lines 131-169): run `share_pvss`, commit
`c_i = g * f_0`, produce the PoK under secret `f_0` and the participant
signature under `sk_sig`, and transition the dealer to `DealerShared`.
Returns the share together with the updated node. -/
def Node.share {q : ℕ} {SPOK SSIG : Type} (ops : AlgebraOps q)
    (spok : Scheme q (ZMod q) SPOK) (ssig : Scheme q (ZMod q) SSIG)
    (node : Node q SPOK SSIG) (rnd : ℕ → ZMod q) (rngPok rngSig : ZMod q) :
    Except (DKGError q) (DKGShare q SPOK SSIG × Node q SPOK SSIG) := do
  let pair ← sharePvss ops node rnd
  let c_i := node.aggregator.config.srs.g_g1 * pair.2.f_0
  let pok := spok.sign rngPok (spok.fromSk pair.2.f_0).1 (messageFromCi c_i)
  let signature := ssig.sign rngSig (ssig.fromSk node.dealer.private_key_sig).1
    (messageFromCi c_i)
  let share : DKGShare q SPOK SSIG :=
    { participant_id := node.dealer.participant.id
      c_i := c_i
      pvss_share := pair.1
      c_i_pok := pok
      signature_on_c_i := signature }
  Except.ok (share,
    { node with dealer := { node.dealer with participant :=
        { node.dealer.participant with state := ParticipantState.DealerShared } } })

/-- Mark the roster entry with the given id as `Verified` (the
`participant.state = ParticipantState::Verified` assignment through
`get_mut`). -/
def setParticipantVerified {q : ℕ} (ps : List (ℕ × Participant q)) (pid : ℕ) :
    List (ℕ × Participant q) :=
  ps.map (fun x => if x.1 = pid then (x.1, { x.2 with state := ParticipantState.Verified }) else x)

/-- `Node::receive_share_and_decrypt` (`src/dkg/node.rs` lines 172-201): run
the fallible closure (aggregator intake plus decryption of this node's seat);
on success fold the secret into `accumulated_secret` and mark the sender
`Verified`; on failure silently drop and report `Ok` with no state change. -/
def receiveShareAndDecrypt {q : ℕ} {SPOK SSIG : Type} [DecidableEq SPOK] [DecidableEq SSIG]
    (ops : AlgebraOps q) (spok : Scheme q (ZMod q) SPOK) (ssig : Scheme q (ZMod q) SSIG)
    (node : Node q SPOK SSIG) (alpha : ZMod q) (share : DKGShare q SPOK SSIG) :
    Except (DKGError q) (Node q SPOK SSIG) :=
  match (do
      let agg ← receiveShare ops spok ssig node.aggregator alpha share
      let secret := (share.pvss_share.y_i.getD node.dealer.participant.id 0) *
        frInverse node.dealer.private_key_sig
      Except.ok (agg, secret) : Except (DKGError q) (DKGAggregator q SPOK SSIG × ZMod q)) with
  | Except.ok x =>
      let node1 : Node q SPOK SSIG :=
        { aggregator := x.1
          dealer := { node.dealer with
            accumulated_secret := node.dealer.accumulated_secret + x.2 } }
      match node1.aggregator.participants.lookup share.participant_id with
      | none => Except.error (DKGError.InvalidParticipantId share.participant_id)
      | some _ => Except.ok
          { node1 with aggregator := { node1.aggregator with
              participants := setParticipantVerified node1.aggregator.participants
                share.participant_id } }
  | Except.error _ => Except.ok node

/-- `Node::receive_transcript_and_decrypt` (`src/dkg/node.rs` lines 204-226):
verify the whole transcript, decrypt this node's seat from the aggregated
`y_i`, mark every contributor `Verified`, and fold the seat into
`accumulated_secret`; failures propagate without mutation. -/
def receiveTranscriptAndDecrypt {q : ℕ} {SPOK SSIG : Type}
    (ops : AlgebraOps q) (spok : Scheme q (ZMod q) SPOK) (ssig : Scheme q (ZMod q) SSIG)
    (node : Node q SPOK SSIG) (rngSig rngPok alpha : ZMod q)
    (transcript : DKGTranscript q SPOK SSIG) : Except (DKGError q) (Node q SPOK SSIG) := do
  receiveTranscript ops spok ssig node.aggregator rngSig rngPok alpha transcript
  let secret := (transcript.pvss_share.y_i.getD node.dealer.participant.id 0) *
    frInverse node.dealer.private_key_sig
  let parts ← transcript.contributions.foldlM
    (fun ps ctr =>
      if (ps.lookup ctr.1).isSome then Except.ok (setParticipantVerified ps ctr.1)
      else Except.error (DKGError.InvalidParticipantId ctr.1))
    node.aggregator.participants
  Except.ok
    { aggregator := { node.aggregator with participants := parts }
      dealer := { node.dealer with
        accumulated_secret := node.dealer.accumulated_secret + secret } }

/-- `src/signature/bls/srs.rs`: the BLS SRS, one generator per group. -/
structure BLSSrs (q : ℕ) where
  g_public_key : ZMod q
  g_signature : ZMod q
  deriving DecidableEq

/-- `BLSSignature::from_sk`: derive the public key `g_public_key * sk`. -/
def blsFromSk {q : ℕ} (srs : BLSSrs q) (sk : ZMod q) : ZMod q × ZMod q :=
  (sk, srs.g_public_key * sk)

/-- `BLSSignature::sign` (`src/signature/bls/mod.rs` lines 71-81): hash the
message into the signature group and scalar-multiply by `sk`.  The rng
argument is unused by the source, and is kept here to show that.  `Hg` is the
`hash_to_group` capability with the `BLSSIGNA` personalization baked in. -/
def blsSign {q : ℕ} (Hg : List ℕ → ZMod q) (_rng : ZMod q) (sk : ZMod q)
    (message : List ℕ) : ZMod q :=
  Hg message * sk

/-- `BLSSignature::verify` (`src/signature/bls/mod.rs` lines 83-101): the
pairing product `e(pk, H(m)) * e(-g_pub, sig)` must be one.  In the exponent
model both group orientations reduce to the same sum-of-products check. -/
def blsVerify {q : ℕ} (srs : BLSSrs q) (Hg : List ℕ → ZMod q)
    (public_key : ZMod q) (message : List ℕ) (signature : ZMod q) :
    Except SignatureError Unit :=
  if public_key * Hg message + (-srs.g_public_key) * signature = 0 then Except.ok ()
  else Except.error SignatureError.BLSVerify

/-- `BLSSignature::batch_verify` (`src/signature/bls/mod.rs` lines 125-156):
length check, then one batched pairing product with the `i`-th equation
weighted by `alpha ^ i` (`batch_product_of_pairings_is_one`). -/
def blsBatchVerify {q : ℕ} (srs : BLSSrs q) (Hg : List ℕ → ZMod q) (alpha : ZMod q)
    (public_keys : List (ZMod q)) (messages : List (List ℕ)) (signatures : List (ZMod q)) :
    Except SignatureError Unit :=
  if public_keys.length ≠ messages.length ∨ public_keys.length ≠ signatures.length then
    Except.error (SignatureError.BatchVerification public_keys.length messages.length
      signatures.length)
  else if ((public_keys.zip (messages.zip signatures)).enum.map
      (fun x => alpha ^ x.1 * (x.2.1 * Hg x.2.2.1 + (-srs.g_public_key) * x.2.2.2))).sum = 0 then
    Except.ok ()
  else Except.error SignatureError.BLSVerify

/-- `src/signature/schnorr/srs.rs`: the Schnorr SRS, a single generator. -/
structure SchnorrSrs (q : ℕ) where
  g_public_key : ZMod q
  deriving DecidableEq

/-- `SchnorrSignature::from_sk`. -/
def schnorrFromSk {q : ℕ} (srs : SchnorrSrs q) (sk : ZMod q) : ZMod q × ZMod q :=
  (sk, srs.g_public_key * sk)

/-- `SchnorrSignature::sign` (`src/signature/schnorr/mod.rs` lines 45-65):
draw `v` (taken as an argument here), commit `V = g * v`, bind
`h = hash_to_field(message || enc(V) || enc(g))`, answer `r = v - sk * h`.
`encC` is the canonical serialization of a group element and `Hf` the
`hash_to_field` capability with the `SCHSIGNA` personalization baked in. -/
def schnorrSign {q : ℕ} (srs : SchnorrSrs q) (encC : ZMod q → List ℕ)
    (Hf : List ℕ → ZMod q) (v sk : ZMod q) (message : List ℕ) : ZMod q × ZMod q :=
  let v_g := srs.g_public_key * v
  let hashed_message := Hf (message ++ encC v_g ++ encC srs.g_public_key)
  (v_g, v - sk * hashed_message)

/-- `SchnorrSignature::verify` (`src/signature/schnorr/mod.rs` lines 67-91):
recompute `h` from the commitment in the signature and check
`g * r + pk * h = V`. -/
def schnorrVerify {q : ℕ} (srs : SchnorrSrs q) (encC : ZMod q → List ℕ)
    (Hf : List ℕ → ZMod q) (public_key : ZMod q) (message : List ℕ)
    (signature : ZMod q × ZMod q) : Except SignatureError Unit :=
  if srs.g_public_key * signature.2 +
      public_key * Hf (message ++ encC signature.1 ++ encC srs.g_public_key) ≠ signature.1 then
    Except.error SignatureError.SchnorrVerify
  else Except.ok ()

/-- `SchnorrSignature::batch_verify` (`src/signature/schnorr/mod.rs` lines
95-144): length check, then a single MSM accumulating
`alpha ^ i * (g * r_i + pk_i * h_i - V_i)` over all equations. -/
def schnorrBatchVerify {q : ℕ} (srs : SchnorrSrs q) (encC : ZMod q → List ℕ)
    (Hf : List ℕ → ZMod q) (alpha : ZMod q) (public_keys : List (ZMod q))
    (messages : List (List ℕ)) (signatures : List (ZMod q × ZMod q)) :
    Except SignatureError Unit :=
  if public_keys.length ≠ messages.length ∨ public_keys.length ≠ signatures.length then
    Except.error (SignatureError.BatchVerification public_keys.length messages.length
      signatures.length)
  else if ((public_keys.zip (messages.zip signatures)).enum.map
      (fun x => alpha ^ x.1 * (srs.g_public_key * x.2.2.2.2 +
        x.2.1 * Hf (x.2.2.1 ++ encC x.2.2.2.1 ++ encC srs.g_public_key) - x.2.2.2.1))).sum = 0 then
    Except.ok ()
  else Except.error SignatureError.SchnorrVerify

/-- The external hash primitives consumed by `src/signature/utils/hash.rs`:
a 32-byte personalized BLAKE2s and a ChaCha byte stream indexed from a seed. -/
structure HashPrims where
  blake2s : List ℕ → List ℕ → List ℕ
  chacha : List ℕ → ℕ → ℕ

/-- `rng_from_message` (`src/signature/utils/hash.rs` lines 8-19): seed a
deterministic ChaCha stream from the personalized BLAKE2s hash of the
message. -/
def rngFromMessage (P : HashPrims) (personalization message : List ℕ) : ℕ → ℕ :=
  P.chacha (P.blake2s personalization message)

/-- The rejection-sampling loop of `hash_to_group`, with explicit fuel for the
unbounded `loop`: draw `size` bytes from the stream, try to decode a point,
clear the cofactor, and retry on decode failure or the identity. -/
def hashToGroupAux {q : ℕ} (decode : List ℕ → Option (ZMod q)) (cofactor : ZMod q)
    (size : ℕ) (stream : ℕ → ℕ) : ℕ → ℕ → Option (ZMod q)
  | _, 0 => none
  | pos, fuel + 1 =>
      let bytes := (List.range size).map (fun k => stream (pos + k))
      match decode bytes with
      | some p =>
          let scaled := p * cofactor
          if scaled ≠ 0 then some scaled
          else hashToGroupAux decode cofactor size stream (pos + size) fuel
      | none => hashToGroupAux decode cofactor size stream (pos + size) fuel

/-- `hash_to_group` (`src/signature/utils/hash.rs` lines 21-37): rejection
sampling from the per-message stream; `decode` stands for
`from_random_bytes`, `cofactor` for `mul_by_cofactor_to_projective`, `size`
for the serialized size of the group. -/
def hashToGroup {q : ℕ} (P : HashPrims) (decode : List ℕ → Option (ZMod q))
    (cofactor : ZMod q) (size fuel : ℕ) (personalization message : List ℕ) :
    Option (ZMod q) :=
  hashToGroupAux decode cofactor size (rngFromMessage P personalization message) 0 fuel

/-- The rejection-sampling loop of `hash_to_field`, with explicit fuel. -/
def hashToFieldAux {q : ℕ} (decode : List ℕ → Option (ZMod q)) (size : ℕ)
    (stream : ℕ → ℕ) : ℕ → ℕ → Option (ZMod q)
  | _, 0 => none
  | pos, fuel + 1 =>
      let bytes := (List.range size).map (fun k => stream (pos + k))
      match decode bytes with
      | some p => some p
      | none => hashToFieldAux decode size stream (pos + size) fuel

/-- `hash_to_field` (`src/signature/utils/hash.rs` lines 39-52). -/
def hashToField {q : ℕ} (P : HashPrims) (decode : List ℕ → Option (ZMod q))
    (size fuel : ℕ) (personalization message : List ℕ) : Option (ZMod q) :=
  hashToFieldAux decode size (rngFromMessage P personalization message) 0 fuel

/-- The successful result of `mergeEntry` at one id, as a lookup value. -/
def mergeLookup {q : ℕ} {SPOK SSIG : Type} [DecidableEq SPOK] [DecidableEq SSIG]
    (self other : DKGTranscript q SPOK SSIG) (j : ℕ) :
    Option (DKGTranscriptParticipant q SPOK SSIG) :=
  match mergeEntry self other j with
  | Except.ok (some x) => some x.2
  | _ => none

/-- Iterated `receive_share` at a standalone aggregator, as in the
`test_2_nodes_and_aggregator_*` round (each pair is the sampled verification
challenge and the incoming share). -/
def foldReceiveAgg {q : ℕ} {SPOK SSIG : Type} [DecidableEq SPOK] [DecidableEq SSIG]
    (ops : AlgebraOps q) (spok : Scheme q (ZMod q) SPOK) (ssig : Scheme q (ZMod q) SSIG)
    (A : DKGAggregator q SPOK SSIG) : List (ZMod q × DKGShare q SPOK SSIG) →
    Except (DKGError q) (DKGAggregator q SPOK SSIG)
  | [] => Except.ok A
  | p :: rest => do
      let A1 ← receiveShare ops spok ssig A p.1 p.2
      foldReceiveAgg ops spok ssig A1 rest

/-- Iterated `receive_share_and_decrypt` at a node. -/
def foldReceiveShares {q : ℕ} {SPOK SSIG : Type} [DecidableEq SPOK] [DecidableEq SSIG]
    (ops : AlgebraOps q) (spok : Scheme q (ZMod q) SPOK) (ssig : Scheme q (ZMod q) SSIG)
    (node : Node q SPOK SSIG) : List (ZMod q × DKGShare q SPOK SSIG) →
    Except (DKGError q) (Node q SPOK SSIG)
  | [] => Except.ok node
  | p :: rest => do
      let node1 ← receiveShareAndDecrypt ops spok ssig node p.1 p.2
      foldReceiveShares ops spok ssig node1 rest

/-- Trivially succeeding signature scheme over `ZMod 5` used for concrete
witnesses. -/
def wScheme : Scheme 5 (ZMod 5) ℕ :=
  { fromSk := fun sk => (sk, sk)
    sign := fun _ _ _ => 0
    verify := fun _ _ _ => Except.ok ()
    batchVerify := fun _ _ _ _ => Except.ok () }

/-- Concrete algebra capability over `ZMod 5` used for witnesses: every
domain size is available, the Lagrange coefficients are those of the
size-one domain extended trivially, and the FFT pads or truncates its input
to the domain size. -/
def wOps : AlgebraOps 5 :=
  { domainExists := fun _ => true
    lagrangeAll := fun n _ => List.replicate n 1
    fft := fun n f => (f ++ List.replicate n 0).take n }

/-- Witness participant with id 0. -/
def wParticipant : Participant 5 :=
  { id := 0, public_key_sig := 1, state := ParticipantState.Initial }

/-- Witness dealer. -/
def wDealer : Dealer 5 :=
  { private_key_sig := 1, accumulated_secret := 0, participant := wParticipant }

/-- Witness DKG configuration with degree 0. -/
def wConfig : Config 5 :=
  { srs := { g_g1 := 2, h_g2 := 3 }, u_1 := 4, degree := 0 }

/-- Witness aggregator over the single-participant roster. -/
def wAgg : DKGAggregator 5 ℕ ℕ :=
  { config := wConfig
    participants := [(0, wParticipant)]
    transcript := DKGTranscript.empty 5 ℕ ℕ 0 1 }

/-- Witness node. -/
def wNode : Node 5 ℕ ℕ :=
  { aggregator := wAgg, dealer := wDealer }

/-- The PVSS share `wNode` produces from the all-ones coefficient stream. -/
def wC5Pvss : PVSSShare 5 :=
  { f_i := [], u_i_2 := 4, a_i := [2], y_i := [1] }

/-- The matching share secrets. -/
def wC5Secrets : PVSSShareSecrets 5 :=
  { f_0 := 1, my_secret := 3 }

/-- The DKG share `wNode` produces from the all-ones coefficient stream. -/
def wC5Share : DKGShare 5 ℕ ℕ :=
  { participant_id := 0, pvss_share := wC5Pvss, c_i := 2, c_i_pok := 0, signature_on_c_i := 0 }

/-- `wNode` after dealing (dealer marked `DealerShared`). -/
def wC5Node1 : Node 5 ℕ ℕ :=
  { aggregator := wAgg
    dealer := { wDealer with participant :=
      { wParticipant with state := ParticipantState.DealerShared } } }

/-- A share whose participant id 1 is not in `wAgg`'s roster, so that
verification fails at the roster lookup. -/
def wBadShare : DKGShare 5 ℕ ℕ :=
  { participant_id := 1, pvss_share := wC5Pvss, c_i := 0, c_i_pok := 0, signature_on_c_i := 0 }

/-- Transcript with one weight-1 contribution at id 0 carrying PoK value 0. -/
def c3A : DKGTranscript 5 ℕ ℕ :=
  { degree := 0
    num_participants := 1
    contributions := [(0, { c_i := 1, weight := 1, c_i_pok := 0, signature_on_c_i := 0 })]
    pvss_share := PVSSShare.empty 5 0 1 }

/-- Like `c3A` but with PoK value 1 for the same commitment. -/
def c3B : DKGTranscript 5 ℕ ℕ :=
  { degree := 0
    num_participants := 1
    contributions := [(0, { c_i := 1, weight := 1, c_i_pok := 1, signature_on_c_i := 0 })]
    pvss_share := PVSSShare.empty 5 0 1 }

/-- `c3A.aggregate c3B`: keeps `c3A`'s PoK. -/
def c3T1 : DKGTranscript 5 ℕ ℕ :=
  { degree := 0
    num_participants := 1
    contributions := [(0, { c_i := 1, weight := 2, c_i_pok := 0, signature_on_c_i := 0 })]
    pvss_share := PVSSShare.empty 5 0 1 }

/-- `c3B.aggregate c3A`: keeps `c3B`'s PoK. -/
def c3T2 : DKGTranscript 5 ℕ ℕ :=
  { degree := 0
    num_participants := 1
    contributions := [(0, { c_i := 1, weight := 2, c_i_pok := 1, signature_on_c_i := 0 })]
    pvss_share := PVSSShare.empty 5 0 1 }

/-- A contribution parked at id 1, beyond `num_participants = 1`. -/
def c4TP : DKGTranscriptParticipant 5 ℕ ℕ :=
  { c_i := 1, weight := 1, c_i_pok := 0, signature_on_c_i := 0 }

/-- Transcript holding a contribution only at id 1 ≥ `num_participants`. -/
def c4Self : DKGTranscript 5 ℕ ℕ :=
  { degree := 0
    num_participants := 1
    contributions := [(1, c4TP)]
    pvss_share := PVSSShare.empty 5 0 1 }

/-- Transcript with no contributions and the same config as `c4Self`. -/
def c4Other : DKGTranscript 5 ℕ ℕ :=
  { degree := 0
    num_participants := 1
    contributions := []
    pvss_share := PVSSShare.empty 5 0 1 }

/-- `c4Self.aggregate c4Other`: the id-1 contribution is dropped. -/
def c4T : DKGTranscript 5 ℕ ℕ :=
  { degree := 0
    num_participants := 1
    contributions := []
    pvss_share := PVSSShare.empty 5 0 1 }

/-- Two rosters with the same keys and public keys (participant lifecycle
states may differ); the DKG verification routines read a roster only through
its length and key/public-key lookups, so they cannot distinguish aligned
rosters. -/
def pkAlign {q : ℕ} (ps ps2 : List (ℕ × Participant q)) : Prop :=
  ps.length = ps2.length ∧
  ∀ i : ℕ, (ps.lookup i).map Participant.public_key_sig =
    (ps2.lookup i).map Participant.public_key_sig

/-- One-share round used to witness C7. -/
def wC7Pairs : List (ZMod 5 × DKGShare 5 ℕ ℕ) := [(0, wC5Share)]

/-- `wParticipant` after successful verification. -/
def wVerifiedParticipant : Participant 5 :=
  { id := 0, public_key_sig := 1, state := ParticipantState.Verified }

/-- The transcript after the aggregator accepts `wC5Share`. -/
def wC7T1 : DKGTranscript 5 ℕ ℕ :=
  { degree := 0
    num_participants := 1
    contributions := [(0, { c_i := 2, weight := 1, c_i_pok := 0, signature_on_c_i := 0 })]
    pvss_share := { f_i := [], u_i_2 := 4, a_i := [2], y_i := [1] } }

/-- The standalone aggregator after receiving `wC5Share`. -/
def wC7Afin : DKGAggregator 5 ℕ ℕ :=
  { config := wConfig, participants := [(0, wParticipant)], transcript := wC7T1 }

/-- `wNode` after decrypting its seat from `wC5Share` directly. -/
def wC7Node1 : Node 5 ℕ ℕ :=
  { aggregator :=
      { config := wConfig, participants := [(0, wVerifiedParticipant)], transcript := wC7T1 }
    dealer := { private_key_sig := 1, accumulated_secret := 1, participant := wParticipant } }

/-- A fresh copy of `wNode` after decrypting its seat from the aggregated
transcript instead. -/
def wC7Node2 : Node 5 ℕ ℕ :=
  { aggregator :=
      { config := wConfig, participants := [(0, wVerifiedParticipant)],
        transcript := DKGTranscript.empty 5 ℕ ℕ 0 1 }
    dealer := { private_key_sig := 1, accumulated_secret := 1, participant := wParticipant } }

/-- Concrete BLS SRS over `ZMod 5` for witnesses. -/
def wBsrs : BLSSrs 5 :=
  { g_public_key := 2, g_signature := 3 }

/-- Concrete Schnorr SRS over `ZMod 5` for witnesses. -/
def wSsrs : SchnorrSrs 5 :=
  { g_public_key := 2 }

end ADKG

namespace ADKG

theorem powersFrom_eq_map {q : ℕ} (alpha : ZMod q) :
    ∀ (count : ℕ) (start : ZMod q),
      powersFrom start alpha count = (List.range count).map (fun k => start * alpha ^ k) := by
  intro count
  induction count with
  | zero => intro start; simp [powersFrom]
  | succ n ih =>
      intro start
      rw [powersFrom, ih (start * alpha), List.range_succ_eq_map]
      simp [List.map_map, Function.comp, pow_succ, mul_assoc, mul_comm alpha]

/-- C1, counterexample: at challenge `alpha = 2` and degree `t = 2` over
`ZMod 101`, the scalars the degree check appends after the Lagrange
coefficients are not `(-1, alpha, alpha^2)` as the spec words them: the code
produces `(-1, -alpha, -alpha^2)`. -/
theorem C1_counterexample :
    powersOfAlphaDegCheck (2 : ZMod 101) 2 ≠ specDegCheckPowers (2 : ZMod 101) 2 := by
  decide

/-- C1 (amended): in the PVSS degree check, the scalar sequence appended after
the `n` Lagrange coefficients is `(-1, -alpha, -alpha^2, ..., -alpha^t)` -
every entry is negated, not only the first: entry `k` is `-(alpha ^ k)`. -/
theorem C1_degcheck_powers_all_negated {q : ℕ} (alpha : ZMod q) (t : ℕ) :
    powersOfAlphaDegCheck alpha t = (List.range (t + 1)).map (fun k => -(alpha ^ k)) := by
  rw [powersOfAlphaDegCheck, powersFrom_eq_map]
  simp [neg_one_mul]

/-- C2: for every secret key with derived public key, every message, every
hash capability and every rng value, sign-then-verify succeeds, for the BLS
scheme and for the Schnorr scheme. -/
theorem C2_sign_then_verify {q : ℕ} (bsrs : BLSSrs q) (ssrs : SchnorrSrs q)
    (Hg : List ℕ → ZMod q) (encC : ZMod q → List ℕ) (Hf : List ℕ → ZMod q)
    (rng v sk : ZMod q) (m : List ℕ) :
    blsVerify bsrs Hg (blsFromSk bsrs sk).2 m (blsSign Hg rng sk m) = Except.ok () ∧
    schnorrVerify ssrs encC Hf (schnorrFromSk ssrs sk).2 m
      (schnorrSign ssrs encC Hf v sk m) = Except.ok () := by
  constructor
  · unfold blsVerify blsFromSk blsSign
    rw [if_pos (by ring)]
  · unfold schnorrVerify schnorrFromSk schnorrSign
    rw [if_neg]
    push_neg
    ring

/-- C8: `hash_to_group` and `hash_to_field` are deterministic functions of the
pair (personalization, message) - equal inputs give equal results - and their
output depends on the message only through the seed `blake2s(personalization,
message)` fed to the ChaCha stream, with no caller-supplied randomness
involved. -/
theorem C8_hash_deterministic {q : ℕ} (P P2 : HashPrims)
    (decode : List ℕ → Option (ZMod q)) (cof : ZMod q) (size fuel : ℕ)
    (pers1 pers2 m1 m2 : List ℕ) (hpers : pers1 = pers2) (hmsg : m1 = m2) :
    hashToGroup P decode cof size fuel pers1 m1 =
      hashToGroup P decode cof size fuel pers2 m2 ∧
    hashToField P decode size fuel pers1 m1 =
      hashToField P decode size fuel pers2 m2 ∧
    (P.blake2s pers1 m1 = P2.blake2s pers2 m2 → P.chacha = P2.chacha →
      hashToGroup P decode cof size fuel pers1 m1 =
        hashToGroup P2 decode cof size fuel pers2 m2 ∧
      hashToField P decode size fuel pers1 m1 =
        hashToField P2 decode size fuel pers2 m2) := by
  subst hpers hmsg
  refine ⟨rfl, rfl, fun hseed hstream => ?_⟩
  unfold hashToGroup hashToField rngFromMessage
  rw [hseed, hstream]
  exact ⟨rfl, rfl⟩

/-- Concrete hash primitives used to witness C8. -/
def witnessHashPrims : HashPrims :=
  { blake2s := fun pers msg => pers ++ msg
    chacha := fun seed n => seed.sum + n }

/-- Concrete byte decoder into `ZMod 11` used to witness C8. -/
def witnessDecode : List ℕ → Option (ZMod 11) :=
  fun bytes => some ((bytes.headD 0 : ℕ) : ZMod 11)

/-- Witness for C8 at concrete inputs. -/
theorem C8_hash_deterministic_witness :
    hashToGroup witnessHashPrims witnessDecode 1 1 3 [0] [1, 2] =
      hashToGroup witnessHashPrims witnessDecode 1 1 3 [0] [1, 2] ∧
    hashToField witnessHashPrims witnessDecode 1 3 [0] [1, 2] =
      hashToField witnessHashPrims witnessDecode 1 3 [0] [1, 2] ∧
    (witnessHashPrims.blake2s [0] [1, 2] = witnessHashPrims.blake2s [0] [1, 2] →
      witnessHashPrims.chacha = witnessHashPrims.chacha →
      hashToGroup witnessHashPrims witnessDecode 1 1 3 [0] [1, 2] =
        hashToGroup witnessHashPrims witnessDecode 1 1 3 [0] [1, 2] ∧
      hashToField witnessHashPrims witnessDecode 1 3 [0] [1, 2] =
        hashToField witnessHashPrims witnessDecode 1 3 [0] [1, 2]) :=
  C8_hash_deterministic witnessHashPrims witnessHashPrims witnessDecode 1 1 3
    [0] [0] [1, 2] [1, 2] rfl rfl

/-- C9: for both BLS and Schnorr, `batch_verify` returns
`BatchVerification(len_pks, len_msgs, len_sigs)` carrying the three input
lengths exactly when the three slices do not all have the same length; the
result in that case is this error for every `alpha`, hash capability and
element values, so no pairing or MSM check takes place. -/
theorem C9_batch_verify_length_mismatch {q : ℕ} (bsrs : BLSSrs q) (ssrs : SchnorrSrs q)
    (Hg : List ℕ → ZMod q) (encC : ZMod q → List ℕ) (Hf : List ℕ → ZMod q)
    (alpha : ZMod q) (pks : List (ZMod q)) (msgs : List (List ℕ))
    (sigsB : List (ZMod q)) (sigsS : List (ZMod q × ZMod q)) :
    (blsBatchVerify bsrs Hg alpha pks msgs sigsB =
        Except.error (SignatureError.BatchVerification pks.length msgs.length sigsB.length) ↔
      ¬(pks.length = msgs.length ∧ pks.length = sigsB.length)) ∧
    (schnorrBatchVerify ssrs encC Hf alpha pks msgs sigsS =
        Except.error (SignatureError.BatchVerification pks.length msgs.length sigsS.length) ↔
      ¬(pks.length = msgs.length ∧ pks.length = sigsS.length)) := by
  constructor
  · unfold blsBatchVerify
    by_cases h : pks.length ≠ msgs.length ∨ pks.length ≠ sigsB.length
    · rw [if_pos h]
      simp only [eq_self_iff_true, true_iff]
      tauto
    · rw [if_neg h]
      push_neg at h
      constructor
      · intro hres
        split at hres <;> simp_all
      · intro hc
        exact absurd ⟨h.1, h.2⟩ hc
  · unfold schnorrBatchVerify
    by_cases h : pks.length ≠ msgs.length ∨ pks.length ≠ sigsS.length
    · rw [if_pos h]
      simp only [eq_self_iff_true, true_iff]
      tauto
    · rw [if_neg h]
      push_neg at h
      constructor
      · intro hres
        split at hres <;> simp_all
      · intro hc
        exact absurd ⟨h.1, h.2⟩ hc

theorem except_bind_ok {ε α β : Type} {x : Except ε α} {f : α → Except ε β} {b : β} :
    x >>= f = Except.ok b ↔ ∃ a, x = Except.ok a ∧ f a = Except.ok b := by
  cases x <;> simp [Bind.bind, Except.bind]

theorem except_bind_error {ε α β : Type} {x : Except ε α} {f : α → Except ε β} {e : ε} :
    x >>= f = Except.error e ↔
      x = Except.error e ∨ ∃ a, x = Except.ok a ∧ f a = Except.error e := by
  cases x <;> simp [Bind.bind, Except.bind]

theorem listMapE_ok_mem {ε α β : Type} {f : α → Except ε β} :
    ∀ {l : List α} {bs : List β}, listMapE f l = Except.ok bs →
      ∀ a ∈ l, ∃ b, f a = Except.ok b := by
  intro l
  induction l with
  | nil => intro bs _ a ha; cases ha
  | cons x xs ih =>
      intro bs h a ha
      rw [listMapE, except_bind_ok] at h
      obtain ⟨b, hb, h2⟩ := h
      rw [except_bind_ok] at h2
      obtain ⟨bs2, hbs2, _⟩ := h2
      rcases List.mem_cons.mp ha with rfl | hmem
      · exact ⟨b, hb⟩
      · exact ih hbs2 a hmem

theorem zipWith_add_comm {q : ℕ} :
    ∀ (l1 l2 : List (ZMod q)), List.zipWith (· + ·) l1 l2 = List.zipWith (· + ·) l2 l1 := by
  intro l1
  induction l1 with
  | nil => intro l2; cases l2 <;> rfl
  | cons x xs ih =>
      intro l2
      cases l2 with
      | nil => rfl
      | cons y ys => simp [List.zipWith, add_comm, ih]

theorem zipWith_add_replicate_zero {q : ℕ} :
    ∀ (l : List (ZMod q)) (m : ℕ), l.length ≤ m →
      List.zipWith (· + ·) (List.replicate m 0) l = l := by
  intro l
  induction l with
  | nil => intro m _; simp
  | cons x xs ih =>
      intro m hm
      cases m with
      | zero => simp at hm
      | succ m2 =>
          rw [List.replicate_succ]
          simp only [List.zipWith, zero_add]
          rw [ih m2 (by simpa using hm)]

/-- `PVSSShare.aggregate` on a commutative operation commutes. -/
theorem pvss_aggregate_comm {q : ℕ} (a b : PVSSShare q) :
    a.aggregate b = b.aggregate a := by
  simp [PVSSShare.aggregate, zipWith_add_comm, add_comm]

/-- Shape of a successful `share_pvss`: the returned `f_i`, `u_i_2` and `f_0`
in terms of the sampled coefficient vector. -/
theorem sharePvss_ok {q : ℕ} {SPOK SSIG : Type} (ops : AlgebraOps q)
    (node : Node q SPOK SSIG) (rnd : ℕ → ZMod q) (pvss : PVSSShare q)
    (secrets : PVSSShareSecrets q)
    (h : sharePvss ops node rnd = Except.ok (pvss, secrets)) :
    pvss.f_i = (((List.range (node.aggregator.config.degree + 1)).map rnd).drop 1).map
        (fun a => node.aggregator.config.srs.g_g1 * a) ∧
    pvss.u_i_2 = node.aggregator.config.u_1 *
        ((List.range (node.aggregator.config.degree + 1)).map rnd).headD 0 ∧
    secrets.f_0 = ((List.range (node.aggregator.config.degree + 1)).map rnd).headD 0 := by
  unfold sharePvss at h
  split at h
  · exact absurd h (by simp)
  · rw [except_bind_ok] at h
    obtain ⟨ys, _, h2⟩ := h
    simp only [Except.ok.injEq, Prod.mk.injEq] at h2
    obtain ⟨hpvss, hsecrets⟩ := h2
    refine ⟨?_, ?_, ?_⟩
    · rw [← hpvss]
    · rw [← hpvss]
    · rw [← hsecrets]

/-- C5: a successful `share` returns `c_i = g * f_0` and a PVSS share with
`u_i_2 = u1 * f_0`, where `f_0` is the secret scalar of the
`PVSSShareSecrets` returned by the underlying `share_pvss` - the same-ratio
invariant of the produced contribution. -/
theorem C5_share_same_ratio {q : ℕ} {SPOK SSIG : Type} (ops : AlgebraOps q)
    (spok : Scheme q (ZMod q) SPOK) (ssig : Scheme q (ZMod q) SSIG)
    (node : Node q SPOK SSIG) (rnd : ℕ → ZMod q) (rngPok rngSig : ZMod q)
    (sh : DKGShare q SPOK SSIG) (node1 : Node q SPOK SSIG)
    (pvss : PVSSShare q) (secrets : PVSSShareSecrets q)
    (hshare : Node.share ops spok ssig node rnd rngPok rngSig = Except.ok (sh, node1))
    (hpvss : sharePvss ops node rnd = Except.ok (pvss, secrets)) :
    sh.c_i = node.aggregator.config.srs.g_g1 * secrets.f_0 ∧
    sh.pvss_share.u_i_2 = node.aggregator.config.u_1 * secrets.f_0 := by
  obtain ⟨_, hu, hf0⟩ := sharePvss_ok ops node rnd pvss secrets hpvss
  unfold Node.share at hshare
  rw [hpvss] at hshare
  simp only [Bind.bind, Except.bind, Except.ok.injEq, Prod.mk.injEq] at hshare
  obtain ⟨hsh, _⟩ := hshare
  constructor
  · rw [← hsh]
  · rw [← hsh]
    show pvss.u_i_2 = node.aggregator.config.u_1 * secrets.f_0
    rw [hu, hf0]

/-- Witness for C5 at the concrete single-participant node. -/
theorem C5_share_same_ratio_witness :
    wC5Share.c_i = wNode.aggregator.config.srs.g_g1 * wC5Secrets.f_0 ∧
    wC5Share.pvss_share.u_i_2 = wNode.aggregator.config.u_1 * wC5Secrets.f_0 :=
  C5_share_same_ratio wOps wScheme wScheme wNode (fun _ => 1) 0 0 wC5Share wC5Node1
    wC5Pvss wC5Secrets (by decide) (by decide)

/-- C6: whenever the aggregator intake of a share fails - any § 4.4 check or
the aggregation step - `receive_share_and_decrypt` returns `Ok` with the node
completely unchanged (same dealer `accumulated_secret`, same roster states,
same transcript). -/
theorem C6_silent_drop {q : ℕ} {SPOK SSIG : Type} [DecidableEq SPOK] [DecidableEq SSIG]
    (ops : AlgebraOps q) (spok : Scheme q (ZMod q) SPOK) (ssig : Scheme q (ZMod q) SSIG)
    (node : Node q SPOK SSIG) (alpha : ZMod q) (share : DKGShare q SPOK SSIG)
    (e : DKGError q)
    (hfail : receiveShare ops spok ssig node.aggregator alpha share = Except.error e) :
    receiveShareAndDecrypt ops spok ssig node alpha share = Except.ok node := by
  unfold receiveShareAndDecrypt
  rw [hfail]
  rfl

/-- Witness for C6: a share from an id outside the roster is silently
dropped. -/
theorem C6_silent_drop_witness :
    receiveShareAndDecrypt wOps wScheme wScheme wNode 0 wBadShare = Except.ok wNode :=
  C6_silent_drop wOps wScheme wScheme wNode 0 wBadShare
    (DKGError.InvalidParticipantId 1) (by decide)

/-- C10: `PVSSShare::aggregate` truncates each vector to the shorter operand
(there is no length check); `empty` has `f_i` of length `degree + 1` while a
generated share has `f_i` of length `degree`, so folding a generated share
into an empty transcript gives exactly the generated `f_i`. -/
theorem C10_aggregate_truncates {q : ℕ} {SPOK SSIG : Type} (ops : AlgebraOps q)
    (node : Node q SPOK SSIG) (rnd : ℕ → ZMod q) (a b : PVSSShare q)
    (pvss : PVSSShare q) (secrets : PVSSShareSecrets q)
    (hok : sharePvss ops node rnd = Except.ok (pvss, secrets)) :
    ((a.aggregate b).f_i.length = min a.f_i.length b.f_i.length ∧
     (a.aggregate b).a_i.length = min a.a_i.length b.a_i.length ∧
     (a.aggregate b).y_i.length = min a.y_i.length b.y_i.length) ∧
    (PVSSShare.empty q node.aggregator.config.degree
        node.aggregator.participants.length).f_i.length =
      node.aggregator.config.degree + 1 ∧
    pvss.f_i.length = node.aggregator.config.degree ∧
    ((PVSSShare.empty q node.aggregator.config.degree
        node.aggregator.participants.length).aggregate pvss).f_i = pvss.f_i := by
  obtain ⟨hf, _, _⟩ := sharePvss_ok ops node rnd pvss secrets hok
  have hlen : pvss.f_i.length = node.aggregator.config.degree := by
    rw [hf]; simp
  refine ⟨⟨?_, ?_, ?_⟩, ?_, hlen, ?_⟩
  · simp [PVSSShare.aggregate]
  · simp [PVSSShare.aggregate]
  · simp [PVSSShare.aggregate]
  · simp [PVSSShare.empty]
  · show List.zipWith (· + ·)
      (List.replicate (node.aggregator.config.degree + 1) 0) pvss.f_i = pvss.f_i
    exact zipWith_add_replicate_zero pvss.f_i _ (by rw [hlen]; exact Nat.le_succ _)

theorem lookup_cons_self {β : Type} (k : ℕ) (v : β) (l : List (ℕ × β)) :
    List.lookup k ((k, v) :: l) = some v := by
  rw [List.lookup_cons]; simp

theorem lookup_cons_ne {β : Type} {j k : ℕ} (v : β) (l : List (ℕ × β)) (h : j ≠ k) :
    List.lookup j ((k, v) :: l) = List.lookup j l := by
  rw [List.lookup_cons]
  have hb : (j == k) = false := by simpa using h
  rw [hb]

theorem mergeEntry_key {q : ℕ} {SPOK SSIG : Type} [DecidableEq SPOK] [DecidableEq SSIG]
    {self other : DKGTranscript q SPOK SSIG} {i : ℕ}
    {x : ℕ × DKGTranscriptParticipant q SPOK SSIG}
    (h : mergeEntry self other i = Except.ok (some x)) : x.1 = i := by
  unfold mergeEntry at h
  split at h
  · split at h
    · exact absurd h (by simp)
    · simp only [Except.ok.injEq, Option.some.injEq] at h
      rw [← h]
  · simp only [Except.ok.injEq, Option.some.injEq] at h
    rw [← h]
  · simp only [Except.ok.injEq, Option.some.injEq] at h
    rw [← h]
  · exact absurd h (by simp)

theorem mergeEntry_error {q : ℕ} {SPOK SSIG : Type} [DecidableEq SPOK] [DecidableEq SSIG]
    {self other : DKGTranscript q SPOK SSIG} {i : ℕ} {e : DKGError q}
    (h : mergeEntry self other i = Except.error e) :
    e = DKGError.TranscriptDifferentCommitments := by
  unfold mergeEntry at h
  split at h
  · split at h
    · simp only [Except.error.injEq] at h
      rw [h]
    · exact absurd h (by simp)
  · exact absurd h (by simp)
  · exact absurd h (by simp)
  · exact absurd h (by simp)

theorem listMapE_error_mem {ε α β : Type} {f : α → Except ε β} :
    ∀ {l : List α} {e : ε}, listMapE f l = Except.error e →
      ∃ a ∈ l, f a = Except.error e := by
  intro l
  induction l with
  | nil => intro e h; simp [listMapE] at h
  | cons x xs ih =>
      intro e h
      rw [listMapE, except_bind_error] at h
      rcases h with hx | ⟨b, _, h2⟩
      · exact ⟨x, List.mem_cons_self x xs, hx⟩
      · rw [except_bind_error] at h2
        rcases h2 with hxs | ⟨bs, _, h3⟩
        · obtain ⟨a, ha, hfa⟩ := ih hxs
          exact ⟨a, List.mem_cons_of_mem x ha, hfa⟩
        · exact absurd h3 (by simp)

theorem lookup_merge_entries {q : ℕ} {SPOK SSIG : Type} [DecidableEq SPOK] [DecidableEq SSIG]
    (self other : DKGTranscript q SPOK SSIG) :
    ∀ (is : List ℕ) (es : List (Option (ℕ × DKGTranscriptParticipant q SPOK SSIG))),
      is.Nodup →
      listMapE (mergeEntry self other) is = Except.ok es →
      ∀ j, (es.filterMap id).lookup j =
        if j ∈ is then mergeLookup self other j else none := by
  intro is
  induction is with
  | nil =>
      intro es _ h j
      simp only [listMapE, Except.ok.injEq] at h
      subst h
      simp
  | cons i rest ih =>
      intro es hnd h j
      rw [List.nodup_cons] at hnd
      rw [listMapE, except_bind_ok] at h
      obtain ⟨e, he, h2⟩ := h
      rw [except_bind_ok] at h2
      obtain ⟨es2, hes2, h3⟩ := h2
      simp only [Except.ok.injEq] at h3
      subst h3
      cases e with
      | none =>
          have hfm : (none :: es2).filterMap id = es2.filterMap id := rfl
          rw [hfm, ih es2 hnd.2 hes2 j]
          by_cases hji : j = i
          · subst hji
            rw [if_neg hnd.1, if_pos (List.mem_cons_self j rest)]
            unfold mergeLookup
            rw [he]
          · simp [List.mem_cons, hji]
      | some x =>
          obtain ⟨x1, x2⟩ := x
          have hx1 : x1 = i := mergeEntry_key he
          subst hx1
          have hfm : (some (x1, x2) :: es2).filterMap id = (x1, x2) :: es2.filterMap id := rfl
          rw [hfm]
          by_cases hji : j = x1
          · subst hji
            rw [lookup_cons_self, if_pos (List.mem_cons_self j rest)]
            unfold mergeLookup
            rw [he]
          · rw [lookup_cons_ne _ _ hji, ih es2 hnd.2 hes2 j]
            simp [List.mem_cons, hji]

/-- Shape of a successful `DKGTranscript::aggregate`: equal configs, config
and summed PVSS share carried into the result, every per-id merge succeeded,
and the result's contributions look up as the per-id merge over
`0..num_participants` and as `none` beyond it. -/
theorem aggregate_ok {q : ℕ} {SPOK SSIG : Type} [DecidableEq SPOK] [DecidableEq SSIG]
    {self other t : DKGTranscript q SPOK SSIG}
    (h : self.aggregate other = Except.ok t) :
    self.degree = other.degree ∧ self.num_participants = other.num_participants ∧
    t.degree = self.degree ∧ t.num_participants = self.num_participants ∧
    t.pvss_share = self.pvss_share.aggregate other.pvss_share ∧
    (∀ j, j < self.num_participants → ∃ o, mergeEntry self other j = Except.ok o) ∧
    (∀ j, t.contributions.lookup j =
      if j < self.num_participants then mergeLookup self other j else none) := by
  unfold DKGTranscript.aggregate at h
  split at h
  · exact absurd h (by simp)
  · rename_i hcfg
    push_neg at hcfg
    rw [except_bind_ok] at h
    obtain ⟨es, hes, h2⟩ := h
    simp only [Except.ok.injEq] at h2
    subst h2
    refine ⟨hcfg.1, hcfg.2, rfl, rfl, rfl, ?_, ?_⟩
    · intro j hj
      exact listMapE_ok_mem hes j (List.mem_range.mpr hj)
    · intro j
      have hl := lookup_merge_entries self other (List.range self.num_participants) es
        (List.nodup_range _) hes j
      show (es.filterMap id).lookup j = _
      rw [hl]
      simp [List.mem_range]

/-- Resolution of a successful per-id merge into the four lookup cases. -/
theorem mergeLookup_cases {q : ℕ} {SPOK SSIG : Type} [DecidableEq SPOK] [DecidableEq SSIG]
    {self other : DKGTranscript q SPOK SSIG} {j : ℕ}
    (hok : ∃ o, mergeEntry self other j = Except.ok o) :
    mergeLookup self other j =
      match self.contributions.lookup j, other.contributions.lookup j with
      | some a, some b => some
          { c_i := a.c_i
            weight := a.weight + b.weight
            c_i_pok := a.c_i_pok
            signature_on_c_i := a.signature_on_c_i }
      | some a, none => some a
      | none, some b => some b
      | none, none => none := by
  obtain ⟨o, ho⟩ := hok
  unfold mergeLookup
  rw [ho]
  cases ha : self.contributions.lookup j <;> cases hb : other.contributions.lookup j <;>
    simp only [mergeEntry, ha, hb] at ho
  · simp only [Except.ok.injEq] at ho
    subst ho
    rfl
  · simp only [Except.ok.injEq] at ho
    subst ho
    rfl
  · simp only [Except.ok.injEq] at ho
    subst ho
    rfl
  · rename_i a b
    by_cases hc : a.c_i = b.c_i
    · rw [if_neg (not_not_intro hc)] at ho
      simp only [Except.ok.injEq] at ho
      subst ho
      rfl
    · rw [if_pos hc] at ho
      exact absurd ho (by simp)

/-- C4, counterexample: a contribution sitting at id 1 with
`num_participants = 1` is present in only one operand, yet aggregation
succeeds and drops it instead of carrying it through. -/
theorem C4_counterexample :
    c4Self.aggregate c4Other = Except.ok c4T ∧
    c4Self.contributions.lookup 1 = some c4TP ∧
    c4Other.contributions.lookup 1 = none ∧
    c4T.contributions.lookup 1 = none := by
  decide

/-- C4 (amended): `aggregate` fails with `TranscriptDifferentConfig` exactly
when `degree` or `num_participants` differ; with equal configs, an id below
`num_participants` present on both sides with different `c_i` values makes it
fail with `TranscriptDifferentCommitments`; on success, an id looks up in the
result as the merge of the two sides (both present: same `c_i`, summed
weight, `self`'s PoK and signature; one present: carried through; neither:
absent) when it is below `num_participants`, and as absent when it is not. -/
theorem C4_aggregate_characterization {q : ℕ} {SPOK SSIG : Type}
    [DecidableEq SPOK] [DecidableEq SSIG] (self other t : DKGTranscript q SPOK SSIG) :
    (self.aggregate other = Except.error (DKGError.TranscriptDifferentConfig
        self.degree other.degree self.num_participants other.num_participants) ↔
      (self.degree ≠ other.degree ∨ self.num_participants ≠ other.num_participants)) ∧
    (self.degree = other.degree → self.num_participants = other.num_participants →
      ∀ j, j < self.num_participants →
      ∀ a b, self.contributions.lookup j = some a → other.contributions.lookup j = some b →
        a.c_i ≠ b.c_i →
        self.aggregate other = Except.error DKGError.TranscriptDifferentCommitments) ∧
    (self.aggregate other = Except.ok t →
      ∀ j, t.contributions.lookup j =
        if j < self.num_participants then
          (match self.contributions.lookup j, other.contributions.lookup j with
           | some a, some b => some
               { c_i := a.c_i
                 weight := a.weight + b.weight
                 c_i_pok := a.c_i_pok
                 signature_on_c_i := a.signature_on_c_i }
           | some a, none => some a
           | none, some b => some b
           | none, none => none)
        else none) := by
  refine ⟨?_, ?_, ?_⟩
  · constructor
    · intro h
      by_contra hcfg
      push_neg at hcfg
      unfold DKGTranscript.aggregate at h
      rw [if_neg (by push_neg; exact hcfg)] at h
      rw [except_bind_error] at h
      rcases h with herr | ⟨es, _, h3⟩
      · obtain ⟨a, _, hfa⟩ := listMapE_error_mem herr
        exact absurd (mergeEntry_error hfa) (by simp)
      · exact absurd h3 (by simp)
    · intro hcfg
      unfold DKGTranscript.aggregate
      rw [if_pos hcfg]
  · intro hdeg hnum j hj a b ha hb hne
    unfold DKGTranscript.aggregate
    rw [if_neg (by push_neg; exact ⟨hdeg, hnum⟩)]
    have hmerge : mergeEntry self other j =
        Except.error DKGError.TranscriptDifferentCommitments := by
      simp only [mergeEntry, ha, hb]
      rw [if_pos hne]
    cases hes : listMapE (mergeEntry self other) (List.range self.num_participants) with
    | error e =>
        have he : e = DKGError.TranscriptDifferentCommitments := by
          obtain ⟨i, _, hfi⟩ := listMapE_error_mem hes
          exact mergeEntry_error hfi
        subst he
        rfl
    | ok es =>
        exfalso
        obtain ⟨o, ho⟩ := listMapE_ok_mem hes j (List.mem_range.mpr hj)
        rw [hmerge] at ho
        exact absurd ho (by simp)
  · intro h j
    obtain ⟨_, _, _, _, _, hsucc, hlook⟩ := aggregate_ok h
    rw [hlook j]
    by_cases hj : j < self.num_participants
    · rw [if_pos hj, if_pos hj, mergeLookup_cases (hsucc j hj)]
    · rw [if_neg hj, if_neg hj]

/-- C3, counterexample: two transcripts sharing id 0 with the same commitment
but different PoK values aggregate successfully in both orders, yet the two
resulting transcripts are not equal (they differ in the retained
`c_i_pok`). -/
theorem C3_counterexample :
    c3A.aggregate c3B = Except.ok c3T1 ∧ c3B.aggregate c3A = Except.ok c3T2 ∧
    c3T1 ≠ c3T2 := by
  decide

/-- C3 (amended): when both orders of aggregation succeed, the two results
agree in degree, `num_participants`, the summed PVSS share, and in the ids,
commitments and weights of every contribution; the retained `c_i_pok` and
`signature_on_c_i` are taken from `self`, so those fields may differ between
the two orders. -/
theorem C3_aggregate_commutative {q : ℕ} {SPOK SSIG : Type}
    [DecidableEq SPOK] [DecidableEq SSIG] (a b t1 t2 : DKGTranscript q SPOK SSIG)
    (h1 : a.aggregate b = Except.ok t1) (h2 : b.aggregate a = Except.ok t2) :
    t1.degree = t2.degree ∧ t1.num_participants = t2.num_participants ∧
    t1.pvss_share = t2.pvss_share ∧
    ∀ j, (t1.contributions.lookup j).map (fun p => (p.c_i, p.weight)) =
         (t2.contributions.lookup j).map (fun p => (p.c_i, p.weight)) := by
  obtain ⟨hdeg1, hnum1, htd1, htn1, htp1, hs1, hl1⟩ := aggregate_ok h1
  obtain ⟨_, _, htd2, htn2, htp2, hs2, hl2⟩ := aggregate_ok h2
  refine ⟨by rw [htd1, htd2, hdeg1], by rw [htn1, htn2, hnum1], ?_, ?_⟩
  · rw [htp1, htp2, pvss_aggregate_comm]
  · intro j
    rw [hl1 j, hl2 j]
    by_cases hj : j < a.num_participants
    · rw [if_pos hj, if_pos (by rw [← hnum1]; exact hj),
        mergeLookup_cases (hs1 j hj),
        mergeLookup_cases (hs2 j (by rw [← hnum1]; exact hj))]
      cases hca : a.contributions.lookup j <;> cases hcb : b.contributions.lookup j
      · rfl
      · rfl
      · rfl
      · rename_i pa pb
        obtain ⟨o, ho⟩ := hs1 j hj
        simp only [mergeEntry, hca, hcb] at ho
        by_cases hc : pa.c_i = pb.c_i
        · simp [hc, Nat.add_comm]
        · rw [if_pos hc] at ho
          exact absurd ho (by simp)
    · rw [if_neg hj, if_neg (by rw [← hnum1]; exact hj)]

/-- Witness for C3 at the concrete pair of transcripts. -/
theorem C3_aggregate_commutative_witness :
    (c3T1.contributions.lookup 0).map (fun p => (p.c_i, p.weight)) =
      (c3T2.contributions.lookup 0).map (fun p => (p.c_i, p.weight)) :=
  (C3_aggregate_commutative c3A c3B c3T1 c3T2 (by decide) (by decide)).2.2.2 0

/-- Witness for C4 at the concrete pair of transcripts, using the success
characterization at id 1. -/
theorem C4_aggregate_characterization_witness :
    c4T.contributions.lookup 1 =
      if 1 < c4Self.num_participants then
        (match c4Self.contributions.lookup 1, c4Other.contributions.lookup 1 with
         | some a, some b => some
             { c_i := a.c_i
               weight := a.weight + b.weight
               c_i_pok := a.c_i_pok
               signature_on_c_i := a.signature_on_c_i }
         | some a, none => some a
         | none, some b => some b
         | none, none => none)
      else none :=
  (C4_aggregate_characterization c4Self c4Other c4T).2.2 (by decide) 1

theorem listMapE_congr {ε α β : Type} {f g : α → Except ε β} :
    ∀ {l : List α}, (∀ a ∈ l, f a = g a) → listMapE f l = listMapE g l := by
  intro l
  induction l with
  | nil => intro _; rfl
  | cons x xs ih =>
      intro h
      rw [listMapE, listMapE, h x (List.mem_cons_self x xs),
        ih (fun a ha => h a (List.mem_cons_of_mem x ha))]

theorem lookup_setParticipantVerified {q : ℕ} (pid i : ℕ) :
    ∀ (ps : List (ℕ × Participant q)),
      (setParticipantVerified ps pid).lookup i =
        (ps.lookup i).map
          (fun p => if i = pid then { p with state := ParticipantState.Verified } else p) := by
  intro ps
  induction ps with
  | nil => rfl
  | cons hd tl ih =>
      obtain ⟨k, v⟩ := hd
      show List.lookup i ((if k = pid then (k, { v with state := ParticipantState.Verified })
        else (k, v)) :: setParticipantVerified tl pid) = _
      by_cases hik : i = k
      · subst hik
        by_cases hk : i = pid
        · rw [if_pos hk, lookup_cons_self, lookup_cons_self]
          simp [hk]
        · rw [if_neg hk, lookup_cons_self, lookup_cons_self]
          simp [hk]
      · by_cases hk : k = pid
        · rw [if_pos hk, lookup_cons_ne _ _ hik, lookup_cons_ne _ _ hik]
          exact ih
        · rw [if_neg hk, lookup_cons_ne _ _ hik, lookup_cons_ne _ _ hik]
          exact ih

theorem pkAlign_refl {q : ℕ} (ps : List (ℕ × Participant q)) : pkAlign ps ps :=
  ⟨rfl, fun _ => rfl⟩

theorem pkAlign_setVerified {q : ℕ} {ps ps2 : List (ℕ × Participant q)} (pid : ℕ)
    (h : pkAlign ps ps2) : pkAlign ps (setParticipantVerified ps2 pid) := by
  constructor
  · rw [h.1]
    show ps2.length = (ps2.map _).length
    rw [List.length_map]
  · intro i
    rw [lookup_setParticipantVerified pid i ps2, h.2 i, Option.map_map]
    cases ps2.lookup i <;> [rfl; (by_cases hik : i = pid <;> simp [Function.comp, hik])]

theorem encCheckTerm_align {q : ℕ} {ps ps2 : List (ℕ × Participant q)}
    (hp : ∀ i : ℕ, (ps.lookup i).map Participant.public_key_sig =
      (ps2.lookup i).map Participant.public_key_sig) :
    encCheckTerm ps2 = encCheckTerm ps := by
  funext x
  unfold encCheckTerm
  have h := hp x.1
  cases hA : ps.lookup x.1 <;> cases hB : ps2.lookup x.1 <;> rw [hA, hB] at h <;>
    simp at h <;> try rfl
  rename_i p p2
  show Except.ok [x.2.2 * x.2.1.2, x.2.1.1 * p2.public_key_sig] =
    Except.ok [x.2.2 * x.2.1.2, x.2.1.1 * p.public_key_sig]
  rw [h]

theorem pvssShareVerify_align {q : ℕ} {SPOK SSIG : Type} (ops : AlgebraOps q)
    {A B : DKGAggregator q SPOK SSIG} (hc : B.config = A.config)
    (hp : pkAlign A.participants B.participants) (alpha c_i : ZMod q)
    (share : PVSSShare q) :
    pvssShareVerify ops B alpha c_i share = pvssShareVerify ops A alpha c_i share := by
  unfold pvssShareVerify
  rw [hc, ← hp.1, encCheckTerm_align hp.2]

theorem shareVerify_align {q : ℕ} {SPOK SSIG : Type} (ops : AlgebraOps q)
    (spok : Scheme q (ZMod q) SPOK) (ssig : Scheme q (ZMod q) SSIG)
    {A B : DKGAggregator q SPOK SSIG} (hc : B.config = A.config)
    (hp : pkAlign A.participants B.participants) (alpha : ZMod q)
    (share : DKGShare q SPOK SSIG) :
    shareVerify ops spok ssig B alpha share = shareVerify ops spok ssig A alpha share := by
  unfold shareVerify
  have h := hp.2 share.participant_id
  cases hA : A.participants.lookup share.participant_id <;>
    cases hB : B.participants.lookup share.participant_id <;> rw [hA, hB] at h <;>
    simp at h <;> try rfl
  rename_i p p2
  show shareVerifyChecks ops spok ssig B alpha share p2 =
    shareVerifyChecks ops spok ssig A alpha share p
  unfold shareVerifyChecks
  rw [pvssShareVerify_align ops hc hp, h]

theorem shareVerify_ok_lookup {q : ℕ} {SPOK SSIG : Type} {ops : AlgebraOps q}
    {spok : Scheme q (ZMod q) SPOK} {ssig : Scheme q (ZMod q) SSIG}
    {A : DKGAggregator q SPOK SSIG} {alpha : ZMod q} {share : DKGShare q SPOK SSIG}
    (h : shareVerify ops spok ssig A alpha share = Except.ok ()) :
    ∃ p, A.participants.lookup share.participant_id = some p := by
  unfold shareVerify at h
  cases hl : A.participants.lookup share.participant_id with
  | none => rw [hl] at h; exact absurd h (by simp)
  | some p => exact ⟨p, rfl⟩

theorem receiveShare_ok_inv {q : ℕ} {SPOK SSIG : Type}
    [DecidableEq SPOK] [DecidableEq SSIG] {ops : AlgebraOps q}
    {spok : Scheme q (ZMod q) SPOK} {ssig : Scheme q (ZMod q) SSIG}
    {A A1 : DKGAggregator q SPOK SSIG} {alpha : ZMod q} {share : DKGShare q SPOK SSIG}
    (h : receiveShare ops spok ssig A alpha share = Except.ok A1) :
    shareVerify ops spok ssig A alpha share = Except.ok () ∧
    ∃ t1, A.transcript.aggregate
        { degree := A.config.degree
          num_participants := A.participants.length
          contributions := [(share.participant_id,
            { c_i := share.c_i
              weight := 1
              c_i_pok := share.c_i_pok
              signature_on_c_i := share.signature_on_c_i })]
          pvss_share := share.pvss_share } = Except.ok t1 ∧
      A1 = { A with transcript := t1 } := by
  unfold receiveShare at h
  rw [except_bind_ok] at h
  obtain ⟨u, hu, h2⟩ := h
  rw [except_bind_ok] at h2
  obtain ⟨t1, ht1, h3⟩ := h2
  simp only [Except.ok.injEq] at h3
  cases u
  exact ⟨hu, t1, ht1, h3.symm⟩

theorem receiveShare_align_ok {q : ℕ} {SPOK SSIG : Type}
    [DecidableEq SPOK] [DecidableEq SSIG] {ops : AlgebraOps q}
    {spok : Scheme q (ZMod q) SPOK} {ssig : Scheme q (ZMod q) SSIG}
    {A B A1 : DKGAggregator q SPOK SSIG} {alpha : ZMod q} {share : DKGShare q SPOK SSIG}
    (hc : B.config = A.config) (ht : B.transcript = A.transcript)
    (hp : pkAlign A.participants B.participants)
    (h : receiveShare ops spok ssig A alpha share = Except.ok A1) :
    receiveShare ops spok ssig B alpha share =
      Except.ok { B with transcript := A1.transcript } := by
  obtain ⟨hv, t1, hagg, hA1⟩ := receiveShare_ok_inv h
  unfold receiveShare
  rw [shareVerify_align ops spok ssig hc hp, hv, hc, ← hp.1, ht]
  simp only [Bind.bind, Except.bind]
  rw [hagg, hA1]

theorem receiveShareAndDecrypt_ok {q : ℕ} {SPOK SSIG : Type}
    [DecidableEq SPOK] [DecidableEq SSIG] {ops : AlgebraOps q}
    {spok : Scheme q (ZMod q) SPOK} {ssig : Scheme q (ZMod q) SSIG}
    (node : Node q SPOK SSIG) {alpha : ZMod q} {share : DKGShare q SPOK SSIG}
    {B1 : DKGAggregator q SPOK SSIG}
    (h : receiveShare ops spok ssig node.aggregator alpha share = Except.ok B1)
    (hlk : ∃ p, B1.participants.lookup share.participant_id = some p) :
    receiveShareAndDecrypt ops spok ssig node alpha share = Except.ok
      { aggregator := { B1 with participants :=
          setParticipantVerified B1.participants share.participant_id }
        dealer := { node.dealer with accumulated_secret :=
          node.dealer.accumulated_secret +
            (share.pvss_share.y_i.getD node.dealer.participant.id 0) * frInverse node.dealer.private_key_sig } } := by
  obtain ⟨p, hp⟩ := hlk
  unfold receiveShareAndDecrypt
  rw [h]
  simp only [Bind.bind, Except.bind]
  rw [hp]

theorem getD_zipWith_add {q : ℕ} :
    ∀ (l1 l2 : List (ZMod q)) (d : ℕ), d < l1.length → d < l2.length →
      (List.zipWith (· + ·) l1 l2).getD d 0 = l1.getD d 0 + l2.getD d 0 := by
  intro l1
  induction l1 with
  | nil => intro l2 d h1 _; simp at h1
  | cons x xs ih =>
      intro l2 d h1 h2
      cases l2 with
      | nil => simp at h2
      | cons y ys =>
          cases d with
          | zero => rfl
          | succ d2 =>
              show (List.zipWith (· + ·) xs ys).getD d2 0 = xs.getD d2 0 + ys.getD d2 0
              exact ih ys d2 (by simpa using h1) (by simpa using h2)

theorem getD_replicate_zero {q : ℕ} : ∀ (n d : ℕ), (List.replicate n (0 : ZMod q)).getD d 0 = 0
  | 0, _ => by simp
  | _ + 1, 0 => rfl
  | n + 1, d + 1 => by
      show (List.replicate n (0 : ZMod q)).getD d 0 = 0
      exact getD_replicate_zero n d

theorem sum_map_mul_const {q : ℕ} {α : Type} (f : α → ZMod q) (c : ZMod q) :
    ∀ (l : List α), (l.map (fun a => f a * c)).sum = (l.map f).sum * c := by
  intro l
  induction l with
  | nil => simp
  | cons x xs ih => simp [ih, add_mul]

/-- The per-share path at a node mirrors a standalone aggregator fold over
the same shares: if the aggregator fold succeeds, the node fold also
succeeds, its dealer accumulates the sum of the decrypted seats, and its
aggregator stays aligned with the standalone one (same config, same
transcript, same roster keys and public keys). -/
theorem c7_fold {q : ℕ} {SPOK SSIG : Type} [DecidableEq SPOK] [DecidableEq SSIG]
    (ops : AlgebraOps q) (spok : Scheme q (ZMod q) SPOK) (ssig : Scheme q (ZMod q) SSIG) :
    ∀ (pairs : List (ZMod q × DKGShare q SPOK SSIG))
      (A B : DKGAggregator q SPOK SSIG) (dealer : Dealer q)
      (Afin : DKGAggregator q SPOK SSIG),
      B.config = A.config → B.transcript = A.transcript →
      pkAlign A.participants B.participants →
      foldReceiveAgg ops spok ssig A pairs = Except.ok Afin →
      ∃ Bfin : DKGAggregator q SPOK SSIG,
        foldReceiveShares ops spok ssig ⟨B, dealer⟩ pairs = Except.ok
          ⟨Bfin, { dealer with accumulated_secret := dealer.accumulated_secret +
            (pairs.map (fun pr => (pr.2.pvss_share.y_i.getD dealer.participant.id 0) *
              frInverse dealer.private_key_sig)).sum }⟩ ∧
        Bfin.config = Afin.config ∧ Bfin.transcript = Afin.transcript ∧
        pkAlign Afin.participants Bfin.participants := by
  intro pairs
  induction pairs with
  | nil =>
      intro A B dealer Afin hc ht hp hfold
      simp only [foldReceiveAgg, Except.ok.injEq] at hfold
      subst hfold
      refine ⟨B, ?_, hc, ht, hp⟩
      simp [foldReceiveShares]
  | cons pr rest ih =>
      intro A B dealer Afin hc ht hp hfold
      rw [foldReceiveAgg, except_bind_ok] at hfold
      obtain ⟨A1, hA1, hrest⟩ := hfold
      have hstep := receiveShare_align_ok hc ht hp hA1
      obtain ⟨hv, t1, _, hA1eq⟩ := receiveShare_ok_inv hA1
      obtain ⟨p, hlkA⟩ := shareVerify_ok_lookup hv
      have hlkB : ∃ p2, B.participants.lookup pr.2.participant_id = some p2 := by
        have halign := hp.2 pr.2.participant_id
        rw [hlkA] at halign
        cases hB : B.participants.lookup pr.2.participant_id with
        | none => rw [hB] at halign; simp at halign
        | some p2 => exact ⟨p2, rfl⟩
      have hnode := receiveShareAndDecrypt_ok ⟨B, dealer⟩ hstep hlkB
      have hcfg1 : (⟨B.config, setParticipantVerified B.participants pr.2.participant_id,
          A1.transcript⟩ : DKGAggregator q SPOK SSIG).config = A1.config := by
        rw [hA1eq]
        exact hc
      have htr1 : (⟨B.config, setParticipantVerified B.participants pr.2.participant_id,
          A1.transcript⟩ : DKGAggregator q SPOK SSIG).transcript = A1.transcript := rfl
      have hpk1 : pkAlign A1.participants
          (⟨B.config, setParticipantVerified B.participants pr.2.participant_id,
            A1.transcript⟩ : DKGAggregator q SPOK SSIG).participants := by
        rw [hA1eq]
        exact pkAlign_setVerified pr.2.participant_id hp
      obtain ⟨Bfin, hBfold, hcf, htf, hpf⟩ := ih A1
        ⟨B.config, setParticipantVerified B.participants pr.2.participant_id, A1.transcript⟩
        { dealer with accumulated_secret := dealer.accumulated_secret +
          (pr.2.pvss_share.y_i.getD dealer.participant.id 0) * frInverse dealer.private_key_sig }
        Afin hcfg1 htr1 hpk1 hrest
      refine ⟨Bfin, ?_, hcf, htf, hpf⟩
      rw [foldReceiveShares, hnode]
      simp only [Bind.bind, Except.bind]
      exact hBfold.trans (by simp [add_assoc])

/-- Along a successful aggregator fold, the roster is unchanged and the
aggregated transcript's `y_i` accumulates the pointwise sum of the received
shares' `y_i` at every in-range seat. -/
theorem c7_y_sum {q : ℕ} {SPOK SSIG : Type} [DecidableEq SPOK] [DecidableEq SSIG]
    (ops : AlgebraOps q) (spok : Scheme q (ZMod q) SPOK) (ssig : Scheme q (ZMod q) SSIG)
    (d : ℕ) :
    ∀ (pairs : List (ZMod q × DKGShare q SPOK SSIG)) (A Afin : DKGAggregator q SPOK SSIG),
      (∀ pr ∈ pairs, pr.2.pvss_share.y_i.length = A.participants.length) →
      d < A.participants.length →
      A.transcript.pvss_share.y_i.length = A.participants.length →
      foldReceiveAgg ops spok ssig A pairs = Except.ok Afin →
      Afin.participants = A.participants ∧
      Afin.transcript.pvss_share.y_i.length = A.participants.length ∧
      Afin.transcript.pvss_share.y_i.getD d 0 =
        A.transcript.pvss_share.y_i.getD d 0 +
          (pairs.map (fun pr => pr.2.pvss_share.y_i.getD d 0)).sum := by
  intro pairs
  induction pairs with
  | nil =>
      intro A Afin _ _ hylen hfold
      simp only [foldReceiveAgg, Except.ok.injEq] at hfold
      subst hfold
      exact ⟨rfl, hylen, by simp⟩
  | cons pr rest ih =>
      intro A Afin hlen hd hylen hfold
      rw [foldReceiveAgg, except_bind_ok] at hfold
      obtain ⟨A1, hA1, hrest⟩ := hfold
      obtain ⟨_, t1, hagg, hA1eq⟩ := receiveShare_ok_inv hA1
      obtain ⟨_, _, _, _, htp, _, _⟩ := aggregate_ok hagg
      have hy1 : A1.transcript.pvss_share.y_i =
          List.zipWith (· + ·) A.transcript.pvss_share.y_i pr.2.pvss_share.y_i := by
        rw [hA1eq]
        show t1.pvss_share.y_i = _
        rw [htp]
        rfl
      have hsharelen : pr.2.pvss_share.y_i.length = A.participants.length :=
        hlen pr (List.mem_cons_self pr rest)
      have hlen1 : A1.transcript.pvss_share.y_i.length = A.participants.length := by
        rw [hy1, List.length_zipWith, hylen, hsharelen, Nat.min_self]
      have hpart1 : A1.participants = A.participants := by rw [hA1eq]
      have hlenr : ∀ pr2 ∈ rest, pr2.2.pvss_share.y_i.length = A1.participants.length := by
        intro pr2 hm
        rw [hpart1]
        exact hlen pr2 (List.mem_cons_of_mem pr hm)
      obtain ⟨hp2, hl2, hg2⟩ := ih A1 Afin hlenr (by rw [hpart1]; exact hd)
        (by rw [hpart1]; exact hlen1) hrest
      refine ⟨by rw [hp2, hpart1], by rw [hl2, hpart1], ?_⟩
      rw [hg2, hy1, getD_zipWith_add _ _ d (by rw [hylen]; exact hd)
        (by rw [hsharelen]; exact hd)]
      simp [add_assoc]

/-- A successful `receive_transcript_and_decrypt` adds exactly the decrypted
seat of the received transcript to the dealer's accumulated secret. -/
theorem receiveTranscriptAndDecrypt_acc {q : ℕ} {SPOK SSIG : Type}
    {ops : AlgebraOps q} {spok : Scheme q (ZMod q) SPOK} {ssig : Scheme q (ZMod q) SSIG}
    {node node2 : Node q SPOK SSIG} {rngSig rngPok alphaT : ZMod q}
    {t : DKGTranscript q SPOK SSIG}
    (h : receiveTranscriptAndDecrypt ops spok ssig node rngSig rngPok alphaT t =
      Except.ok node2) :
    node2.dealer.accumulated_secret = node.dealer.accumulated_secret +
      (t.pvss_share.y_i.getD node.dealer.participant.id 0) *
        frInverse node.dealer.private_key_sig := by
  unfold receiveTranscriptAndDecrypt at h
  rw [except_bind_ok] at h
  obtain ⟨u, _, h2⟩ := h
  rw [except_bind_ok] at h2
  obtain ⟨parts, _, h3⟩ := h2
  simp only [Except.ok.injEq] at h3
  rw [← h3]

/-- C7: with an identically-initialised empty-transcript start, folding a
collection of shares that the aggregator accepts one by one through
`receive_share_and_decrypt` leaves the dealer with the same accumulated
secret as receiving the aggregated transcript once through
`receive_transcript_and_decrypt` on a fresh identical node. -/
theorem C7_per_share_path_equals_transcript_path {q : ℕ} {SPOK SSIG : Type}
    [DecidableEq SPOK] [DecidableEq SSIG] (ops : AlgebraOps q)
    (spok : Scheme q (ZMod q) SPOK) (ssig : Scheme q (ZMod q) SSIG)
    (pairs : List (ZMod q × DKGShare q SPOK SSIG))
    (A0 Afin : DKGAggregator q SPOK SSIG) (dealer : Dealer q)
    (node1 node2 : Node q SPOK SSIG) (rngSig rngPok alphaT : ZMod q)
    (hempty : A0.transcript =
      DKGTranscript.empty q SPOK SSIG A0.config.degree A0.participants.length)
    (hlen : ∀ pr ∈ pairs, pr.2.pvss_share.y_i.length = A0.participants.length)
    (hd : dealer.participant.id < A0.participants.length)
    (hcentral : foldReceiveAgg ops spok ssig A0 pairs = Except.ok Afin)
    (hfold : foldReceiveShares ops spok ssig ⟨A0, dealer⟩ pairs = Except.ok node1)
    (htrans : receiveTranscriptAndDecrypt ops spok ssig ⟨A0, dealer⟩ rngSig rngPok alphaT
      Afin.transcript = Except.ok node2) :
    node1.dealer.accumulated_secret = node2.dealer.accumulated_secret := by
  obtain ⟨Bfin, hBfold, _, _, _⟩ := c7_fold ops spok ssig pairs A0 A0 dealer Afin rfl rfl
    (pkAlign_refl _) hcentral
  rw [hfold] at hBfold
  simp only [Except.ok.injEq] at hBfold
  have hylen0 : A0.transcript.pvss_share.y_i.length = A0.participants.length := by
    rw [hempty]
    simp [DKGTranscript.empty, PVSSShare.empty]
  obtain ⟨_, _, hysum⟩ := c7_y_sum ops spok ssig dealer.participant.id pairs A0 Afin
    hlen hd hylen0 hcentral
  have hacc2 := receiveTranscriptAndDecrypt_acc htrans
  rw [hBfold]
  show dealer.accumulated_secret +
      (pairs.map (fun pr => (pr.2.pvss_share.y_i.getD dealer.participant.id 0) *
        frInverse dealer.private_key_sig)).sum = node2.dealer.accumulated_secret
  rw [hacc2]
  show _ = dealer.accumulated_secret +
      (Afin.transcript.pvss_share.y_i.getD dealer.participant.id 0) *
        frInverse dealer.private_key_sig
  rw [hysum, hempty]
  show dealer.accumulated_secret +
      (pairs.map (fun pr => (pr.2.pvss_share.y_i.getD dealer.participant.id 0) *
        frInverse dealer.private_key_sig)).sum =
    dealer.accumulated_secret +
      ((List.replicate A0.participants.length 0).getD dealer.participant.id 0 +
        (pairs.map (fun pr => pr.2.pvss_share.y_i.getD dealer.participant.id 0)).sum) *
      frInverse dealer.private_key_sig
  rw [getD_replicate_zero, zero_add,
    sum_map_mul_const (fun pr => pr.2.pvss_share.y_i.getD dealer.participant.id 0)
      (frInverse dealer.private_key_sig) pairs]

/-- Witness for C7: a single verified share received at `wNode` directly and
through the aggregated transcript yields the same accumulated secret. -/
theorem C7_per_share_path_equals_transcript_path_witness :
    wC7Node1.dealer.accumulated_secret = wC7Node2.dealer.accumulated_secret :=
  C7_per_share_path_equals_transcript_path wOps wScheme wScheme wC7Pairs wAgg wC7Afin
    wDealer wC7Node1 wC7Node2 0 0 0 (by decide) (by decide) (by decide) (by decide)
    (by decide) (by decide)

/-- Witness for C9: length-mismatched batches over concrete SRSes. -/
theorem C9_batch_verify_length_mismatch_witness :
    blsBatchVerify wBsrs (fun _ => (1 : ZMod 5)) 1 [1] [] [] =
      Except.error (SignatureError.BatchVerification 1 0 0) ∧
    schnorrBatchVerify wSsrs (fun c => [c.val]) (fun _ => (1 : ZMod 5)) 1 [1] [] [] =
      Except.error (SignatureError.BatchVerification 1 0 0) :=
  ⟨(C9_batch_verify_length_mismatch wBsrs wSsrs (fun _ => 1) (fun c => [c.val])
      (fun _ => 1) 1 [1] [] [] []).1.mpr (by decide),
   (C9_batch_verify_length_mismatch wBsrs wSsrs (fun _ => 1) (fun c => [c.val])
      (fun _ => 1) 1 [1] [] [] []).2.mpr (by decide)⟩
theorem C10_aggregate_truncates_witness :
    ((wC5Pvss.aggregate wC5Pvss).f_i.length = min wC5Pvss.f_i.length wC5Pvss.f_i.length ∧
     (wC5Pvss.aggregate wC5Pvss).a_i.length = min wC5Pvss.a_i.length wC5Pvss.a_i.length ∧
     (wC5Pvss.aggregate wC5Pvss).y_i.length = min wC5Pvss.y_i.length wC5Pvss.y_i.length) ∧
    (PVSSShare.empty 5 wNode.aggregator.config.degree
        wNode.aggregator.participants.length).f_i.length =
      wNode.aggregator.config.degree + 1 ∧
    wC5Pvss.f_i.length = wNode.aggregator.config.degree ∧
    ((PVSSShare.empty 5 wNode.aggregator.config.degree
        wNode.aggregator.participants.length).aggregate wC5Pvss).f_i = wC5Pvss.f_i :=
  C10_aggregate_truncates wOps wNode (fun _ => 1) wC5Pvss wC5Pvss wC5Pvss wC5Secrets
    (by decide)

end ADKG
